import Mathlib

/-!
# common-datalayer: entity/item mapping and streaming iteration

A shallow embedding of `layer/model.go`, `sample/filesystem_datalayer.go` and
`sample/sample_data_layer.go`, followed by theorems about what that code
does, each labelled with the statement of the specification it concerns.

Conventions of the embedding

* A Go call either returns or panics: `Res α`.
* A Go pointer or interface value that may be nil is an `Option`.
* A Go `map[string]any` is a finite function `String → Option Value`; a nil
  map is `none : Option GoMap`.
* State held behind a pointer is passed explicitly: an operation returns the
  state after the call next to its result.
* Collaborators that live outside the three source files (the item codec,
  the mappers built by `layer.NewMapper` and `NewGenericEntityMapper`, the
  standard library) are parameters or are modelled by what the code observes
  of them; each such place says so.
-/

namespace CommonDatalayer

/-! ## Go runtime -/

/-- Result of running Go code: a returned value, or a panic with its message. -/
inductive Res (α : Type) where
  | val (a : α)
  | panic (msg : String)

/-- Values of the Go type `any` that the records of this program hold. -/
inductive Value where
  | null
  | str (s : String)
  | int (n : Int)
  | bool (b : Bool)
deriving DecidableEq, Repr

/-- A non-nil Go `map[string]any`. -/
abbrev GoMap := String → Option Value

/-- The map `make(map[string]any)`. -/
def GoMap.empty : GoMap := fun _ => none

/-- The map after `m[k] = v`. -/
def GoMap.set (m : GoMap) (k : String) (v : Value) : GoMap :=
  fun k2 => if k2 = k then some v else m k2

/-- The expression `m[k]` on a possibly nil map: the zero value (nil) when the
key is absent or the map is nil. -/
def mapIndex (m : Option GoMap) (k : String) : Value :=
  match m with
  | none => Value.null
  | some f => (f k).getD Value.null

/-! ## layer/model.go -/

/-- The struct `DataItem`: `raw map[string]any`. -/
structure DataItem where
  raw : Option GoMap

/-- `func (d *DataItem) GetRaw() map[string]any`. -/
def DataItem.GetRaw (d : DataItem) : Option GoMap := d.raw

/-- `func (d *DataItem) PutRaw(raw map[string]any)`: the item after the call. -/
def DataItem.PutRaw (_d : DataItem) (raw : Option GoMap) : DataItem := { raw := raw }

/-- `func (d *DataItem) GetValue(name string) any`: `d.raw[name]`. -/
def DataItem.GetValue (d : DataItem) (name : String) : Value := mapIndex d.raw name

/-- `func (d *DataItem) SetValue(name string, value any)`: `d.raw[name] = value`,
which panics on a nil map. Returns the item after the call. -/
def DataItem.SetValue (d : DataItem) (name : String) (value : Value) : Res DataItem :=
  match d.raw with
  | none => Res.panic "assignment to entry in nil map"
  | some m => Res.val { raw := some (m.set name value) }

/-- The fields of `egdm.Entity` that this code reads and writes: `ID string` and
`Properties map[string]any` (the type is declared in an external module). -/
structure Entity where
  ID : String
  Properties : Option GoMap

/-- Modelled from the spec: the declaration of `core.EntityPropertyMapping` is not
among the sources; these are the three fields `EntityToItem` reads, the
`targetProperty`, `sourceProperty` and `isIdentity` of a PropertyMapping rule. -/
structure EntityPropertyMapping where
  Property : String
  EntityProperty : String
  IsIdentity : Bool
deriving DecidableEq, Repr

/-- One call made by `MappingEntityIterator.Next` on a collaborator. -/
inductive MappingCall (Item : Type) where
  | rowNext
  | itemToEntity (item : Item)

/-- The struct `MappingEntityIterator`. `rowIterator` is an interface value: the
state `σ` of the iterator it refers to, with `rowNext` its `Next` method.
`mapper.ItemToEntity` returns a pointer, nil included. The field
`customMapping` is never read by the code and is left out. -/
structure MappingEntityIterator (σ Item Ent : Type) where
  mapper : Item → Option Ent
  rowNext : σ → Res (Option Item) × σ
  rowIterator : σ

/-- What one call of `MappingEntityIterator.Next` does: its result, the iterator
after the call, and the collaborator calls it made, in order. -/
structure MappingStep (σ Item Ent : Type) where
  result : Res (Option Ent)
  iter : MappingEntityIterator σ Item Ent
  calls : List (MappingCall Item)

/-- `func (m MappingEntityIterator) Next() *egdm.Entity`. -/
def MappingEntityIterator.Next {σ Item Ent : Type} (m : MappingEntityIterator σ Item Ent) :
    MappingStep σ Item Ent :=
  match m.rowNext m.rowIterator with
  | (Res.panic msg, s) =>
      { result := Res.panic msg, iter := { m with rowIterator := s }, calls := [MappingCall.rowNext] }
  | (Res.val none, s) =>
      { result := Res.val none, iter := { m with rowIterator := s }, calls := [MappingCall.rowNext] }
  | (Res.val (some rawItem), s) =>
      { result := Res.val (m.mapper rawItem), iter := { m with rowIterator := s },
        calls := [MappingCall.rowNext, MappingCall.itemToEntity rawItem] }

/-- `func (m MappingEntityIterator) Token() string`: `panic("implement me")`. -/
def MappingEntityIterator.Token {σ Item Ent : Type} (_m : MappingEntityIterator σ Item Ent) :
    Res String :=
  Res.panic "implement me"

/-- `func (m MappingEntityIterator) Close()`: `panic("implement me")`. -/
def MappingEntityIterator.Close {σ Item Ent : Type} (_m : MappingEntityIterator σ Item Ent) :
    Res Unit :=
  Res.panic "implement me"

/-- The results of up to `n` successive `Next` calls on the underlying item
iterator (calling stops at a panic), and its state afterwards. -/
def rowCalls {σ Item : Type} (rowNext : σ → Res (Option Item) × σ) :
    Nat → σ → List (Res (Option Item)) × σ
  | 0, s => ([], s)
  | n + 1, s =>
    match rowNext s with
    | (Res.panic msg, s1) => ([Res.panic msg], s1)
    | (Res.val r, s1) =>
      let rest := rowCalls rowNext n s1
      (Res.val r :: rest.1, rest.2)

/-- The results of up to `n` successive calls of `MappingEntityIterator.Next`
(calling stops at a panic), and the iterator afterwards. -/
def MappingEntityIterator.nextCalls {σ Item Ent : Type} :
    Nat → MappingEntityIterator σ Item Ent →
      List (Res (Option Ent)) × MappingEntityIterator σ Item Ent
  | 0, m => ([], m)
  | n + 1, m =>
    match m.Next.result with
    | Res.panic msg => ([Res.panic msg], m.Next.iter)
    | Res.val r =>
      let rest := MappingEntityIterator.nextCalls n m.Next.iter
      (Res.val r :: rest.1, rest.2)

/-- What `MappingEntityIterator.Next` makes of one result of the underlying
iterator: nil stays nil, an item goes through the mapper, a panic propagates. -/
def mapRowResult {Item Ent : Type} (mapper : Item → Option Ent) :
    Res (Option Item) → Res (Option Ent)
  | Res.panic msg => Res.panic msg
  | Res.val none => Res.val none
  | Res.val (some i) => Res.val (mapper i)

/-- The struct `DefaultItemMapper`. The rules are held by pointer in the code;
here every rule is a value (no nil rule). -/
structure DefaultItemMapper where
  mappings : List EntityPropertyMapping

/-- The body of the `for _, mapping := range d.mappings` loop of `EntityToItem`,
run over the rules that remain. -/
def DefaultItemMapper.EntityToItemLoop (entity : Entity) :
    List EntityPropertyMapping → DataItem → Res DataItem
  | [], defaultItem => Res.val defaultItem
  | mapping :: rest, defaultItem =>
    let step :=
      if mapping.IsIdentity then
        defaultItem.SetValue mapping.Property (Value.str entity.ID)
      else
        defaultItem.SetValue mapping.Property (mapIndex entity.Properties mapping.EntityProperty)
    match step with
    | Res.panic msg => Res.panic msg
    | Res.val item => DefaultItemMapper.EntityToItemLoop entity rest item

/-- `func (d DefaultItemMapper) EntityToItem(entity *egdm.Entity) Item`, for a
non-nil `entity`. -/
def DefaultItemMapper.EntityToItem (d : DefaultItemMapper) (entity : Entity) : Res DataItem :=
  DefaultItemMapper.EntityToItemLoop entity d.mappings { raw := some GoMap.empty }

/-- `func NewDefaultItemMapper(mappings []*core.EntityPropertyMapping) EntityToItemMapper`. -/
def NewDefaultItemMapper (mappings : List EntityPropertyMapping) : DefaultItemMapper :=
  { mappings := mappings }

/-! ## Errors of the layer -/

/-- The tags `layer.LayerErrorBadParameter`, `layer.LayerErrorInternal` and
`layer.LayerErrorNotFound`. -/
inductive LayerErrorType where
  | BadParameter
  | Internal
  | NotFound
deriving DecidableEq, Repr

/-- A `layer.LayerError` as built by `layer.Err(fmt.Errorf(format, ...), tag)`:
the tag and the format string of the message (its arguments are not rendered). -/
structure LayerError where
  tag : LayerErrorType
  msg : String
deriving DecidableEq, Repr

/-! ## The item codec, as the file iterator observes it -/

/-- One outcome of `ItemReadCloser.Read` that is not end-of-input: an item, or an
error with its message. -/
inductive ReadResult (Item : Type) where
  | item (i : Item)
  | fail (msg : String)

/-- Modelled from the spec: the `encoder` package is not among the sources. An
`encoder.ItemReadCloser` is the Item Codec collaborator, of which this code
requires `Read` (an item, an error, or `(nil, nil)` at the end of the unit) and
`Close` (an error or nil). Its state is the outcomes of the reads still to
come; `closeErr` is what `Close` returns. -/
structure ItemReadCloser (Item : Type) where
  pending : List (ReadResult Item)
  closeErr : Option String

/-- `Read() (Item, error)` with the reader after the call. -/
def ItemReadCloser.Read {Item : Type} (r : ItemReadCloser Item) :
    (Option Item × Option String) × ItemReadCloser Item :=
  match r.pending with
  | [] => ((none, none), r)
  | ReadResult.item i :: rest => ((some i, none), { r with pending := rest })
  | ReadResult.fail msg :: rest => ((none, some msg), { r with pending := rest })

/-- `Close() error`. -/
def ItemReadCloser.Close {Item : Type} (r : ItemReadCloser Item) : Option String := r.closeErr

/-- What opening a file of the directory gives: `os.Open` fails, or the file
opens and `encoder.NewItemReadCloser(sourceConfig, file)` fails, or a reader
positioned at the start of the file. -/
inductive OpenResult (Item : Type) where
  | openFails
  | encoderFails
  | reader (r : ItemReadCloser Item)

/-- Instants of `time.Time`, as a signed count of nanoseconds from the zero
`time.Time`. -/
abbrev Time := Int

/-- The zero value `time.Time{}`, which `time.Parse` returns next to an error. -/
def zeroTime : Time := 0

/-- An `os.DirEntry` with what the code asks of it: `Name()`, `Info()` (the
`ModTime()` of the file info, or `none` when `Info` returns an error), and what
opening the file of that name gives. The file system does not change while an
iterator is in use, so every opening of the same entry gives the same result. -/
structure DirEntry (Item : Type) where
  name : String
  info : Option Time
  opened : OpenResult Item

/-! ## sample/filesystem_datalayer.go: FileCollectionEntityIterator -/

/-- The struct `FileCollectionEntityIterator`. `mapper` is the method
`MapItemToEntity(item, entity) error` of the `*layer.Mapper` (an error message,
or the entity as the mapper filled it). `filesIndex` starts at 0 and is only
incremented. `sourceConfig` only reaches `encoder.NewItemReadCloser`, whose
outcome each `DirEntry` carries. -/
structure FileCollectionEntityIterator (Item : Type) where
  mapper : Item → Entity → Except String Entity
  token : String
  since : Option Time
  path : String
  files : List (DirEntry Item)
  filesIndex : Nat
  currentItemReader : Option (ItemReadCloser Item)

/-- `func NewFileCollectionEntityIterator(sourceConfig, path, files, mapper, token, since)`. -/
def NewFileCollectionEntityIterator {Item : Type} (path : String) (files : List (DirEntry Item))
    (mapper : Item → Entity → Except String Entity) (token : String) (since : Option Time) :
    FileCollectionEntityIterator Item :=
  { mapper := mapper, token := token, since := since, path := path, files := files,
    filesIndex := 0, currentItemReader := none }

/-- `func (f FileCollectionEntityIterator) NewItemReadCloser(filePath, sourceConfig)`,
for the file of a directory entry. -/
def NewItemReadCloser {Item : Type} (file : DirEntry Item) :
    Except LayerError (ItemReadCloser Item) :=
  match file.opened with
  | OpenResult.openFails =>
      Except.error { tag := LayerErrorType.Internal, msg := "could not open file %s" }
  | OpenResult.encoderFails =>
      Except.error { tag := LayerErrorType.BadParameter,
                     msg := "could not create encoder specified in dataset source config" }
  | OpenResult.reader r => Except.ok r

/-- What one call of `Next` does to the outside, in order. -/
inductive FileEvent where
  /-- A call of `NewItemReadCloser` for `files[index]`; `ok` is false when it returned an error. -/
  | opened (index : Nat) (ok : Bool)
  /-- A `Read` that returned an item. -/
  | readItem
  /-- A `Read` that returned `(nil, nil)`. -/
  | readEnd
  /-- A `Read` that returned an error. -/
  | readFail
  /-- A `Close`; `ok` is false when it returned an error. -/
  | closed (ok : Bool)
  /-- A call of `mapper.MapItemToEntity`; `ok` is false when it returned an error. -/
  | mapped (ok : Bool)
deriving DecidableEq, Repr

/-- An attempt to open or to read a unit that failed. -/
def FileEvent.isUnitFailure : FileEvent → Bool
  | FileEvent.opened _ false => true
  | FileEvent.readFail => true
  | _ => false

/-- An operation on a collaborator that returned an error. -/
def FileEvent.isFailure : FileEvent → Bool
  | FileEvent.opened _ false => true
  | FileEvent.readFail => true
  | FileEvent.closed false => true
  | FileEvent.mapped false => true
  | _ => false

/-- What the body of `Next` does: the pair `(*egdm.Entity, layer.LayerError)` it
returns (or a panic), the receiver `f` as the body left it, and the events. -/
structure NextStep (Item : Type) where
  result : Res (Option Entity × Option LayerError)
  recv : FileCollectionEntityIterator Item
  trace : List FileEvent

/-- The error `Next` returns when `NewItemReadCloser` fails. -/
def errCreateReader : LayerError :=
  { tag := LayerErrorType.Internal, msg := "could not create item reader for file %s becuase %s" }

/-- The error `Next` returns when `Read` fails. -/
def errReadItem : LayerError :=
  { tag := LayerErrorType.Internal, msg := "could not read item from file because %s" }

/-- The error `Next` returns when `Close` fails. -/
def errCloseReader : LayerError :=
  { tag := LayerErrorType.Internal, msg := "could not close item reader for file because %s" }

/-- The error `Next` returns when `MapItemToEntity` fails. -/
def errMapItem : LayerError :=
  { tag := LayerErrorType.Internal, msg := "could not map item to entity because %s" }

/-- The shape of every call of `Next`: no operation that failed is followed by
another operation, a failed open or read gives an Internal error, and a
failed mapping gives the mapping error. -/
def NextStep.failsFast {Item : Type} (s : NextStep Item) : Prop :=
  (∀ x ∈ s.trace.dropLast, x.isFailure = false) ∧
  (∀ x ∈ s.trace, x.isUnitFailure = true →
    ∃ err, s.result = Res.val (none, some err) ∧ err.tag = LayerErrorType.Internal) ∧
  (FileEvent.mapped false ∈ s.trace → s.result = Res.val (none, some errMapItem))

/-- Lines 217-226 of `Next`: with `item` as the reads left it, signal the end of
the sequence or map the item into a fresh entity. -/
def FileCollectionEntityIterator.nextFinish {Item : Type} (f : FileCollectionEntityIterator Item)
    (item : Option Item) (trace : List FileEvent) : NextStep Item :=
  match item with
  | none => { result := Res.val (none, none), recv := f, trace := trace }
  | some i =>
    match f.mapper i { ID := "", Properties := some GoMap.empty } with
    | Except.error _ =>
        { result := Res.val (none, some errMapItem), recv := f,
          trace := trace ++ [FileEvent.mapped false] }
    | Except.ok entity =>
        { result := Res.val (some entity, none), recv := f,
          trace := trace ++ [FileEvent.mapped true] }

/-- Lines 195-215 of `Next`, entered when the read returned no item and no error:
close the reader `r`, advance `filesIndex`, and when a unit remains open it and
read once from it. -/
def FileCollectionEntityIterator.nextAdvance {Item : Type} (f : FileCollectionEntityIterator Item)
    (r : ItemReadCloser Item) (trace : List FileEvent) : NextStep Item :=
  match r.Close with
  | some _ =>
      { result := Res.val (none, some errCloseReader), recv := f,
        trace := trace ++ [FileEvent.closed false] }
  | none =>
    let f1 := { f with filesIndex := f.filesIndex + 1 }
    let trace1 := trace ++ [FileEvent.closed true]
    match f1.files.get? f1.filesIndex with
    | none => FileCollectionEntityIterator.nextFinish f1 none trace1
    | some file =>
      match NewItemReadCloser file with
      | Except.error _ =>
          { result := Res.val (none, some errCreateReader), recv := f1,
            trace := trace1 ++ [FileEvent.opened f1.filesIndex false] }
      | Except.ok itemReader =>
        let trace2 := trace1 ++ [FileEvent.opened f1.filesIndex true]
        match itemReader.Read with
        | ((_, some _), r2) =>
            { result := Res.val (none, some errReadItem),
              recv := { f1 with currentItemReader := some r2 },
              trace := trace2 ++ [FileEvent.readFail] }
        | ((none, none), r2) =>
            FileCollectionEntityIterator.nextFinish { f1 with currentItemReader := some r2 } none
              (trace2 ++ [FileEvent.readEnd])
        | ((some i, none), r2) =>
            FileCollectionEntityIterator.nextFinish { f1 with currentItemReader := some r2 } (some i)
              (trace2 ++ [FileEvent.readItem])

/-- Lines 189-227 of `Next`: read from `f.currentItemReader` (a nil reader is a
nil dereference) and go on from what the read returned. -/
def FileCollectionEntityIterator.nextRead {Item : Type} (f : FileCollectionEntityIterator Item)
    (trace : List FileEvent) : NextStep Item :=
  match f.currentItemReader with
  | none =>
      { result := Res.panic "invalid memory address or nil pointer dereference", recv := f,
        trace := trace }
  | some r =>
    match r.Read with
    | ((_, some _), r1) =>
        { result := Res.val (none, some errReadItem),
          recv := { f with currentItemReader := some r1 },
          trace := trace ++ [FileEvent.readFail] }
    | ((some i, none), r1) =>
        FileCollectionEntityIterator.nextFinish { f with currentItemReader := some r1 } (some i)
          (trace ++ [FileEvent.readItem])
    | ((none, none), r1) =>
        FileCollectionEntityIterator.nextAdvance { f with currentItemReader := some r1 } r1
          (trace ++ [FileEvent.readEnd])

/-- The body of `func (f FileCollectionEntityIterator) Next() (*egdm.Entity, layer.LayerError)`
run on the receiver `f`. -/
def FileCollectionEntityIterator.Next {Item : Type} (f : FileCollectionEntityIterator Item) :
    NextStep Item :=
  match f.currentItemReader with
  | some _ => FileCollectionEntityIterator.nextRead f []
  | none =>
    match f.files.get? f.filesIndex with
    | none => FileCollectionEntityIterator.nextRead f []
    | some file =>
      match NewItemReadCloser file with
      | Except.error _ =>
          { result := Res.val (none, some errCreateReader), recv := f,
            trace := [FileEvent.opened f.filesIndex false] }
      | Except.ok itemReader =>
          FileCollectionEntityIterator.nextRead { f with currentItemReader := some itemReader }
            [FileEvent.opened f.filesIndex true]

/-- A call `it.Next()` by the holder of the iterator. `Next` is declared on the
value `FileCollectionEntityIterator`, not on the pointer the constructor
returns, so its body runs on a copy of the struct: the assignments to
`f.currentItemReader` and `f.filesIndex` are lost at return. The copy shares
the reader that `currentItemReader` refers to, which the body reads once when
it is not nil. Returns the result and the holder's iterator after the call. -/
def FileCollectionEntityIterator.callNext {Item : Type} (f : FileCollectionEntityIterator Item) :
    Res (Option Entity × Option LayerError) × FileCollectionEntityIterator Item :=
  (f.Next.result, { f with currentItemReader := f.currentItemReader.map (fun r => r.Read.2) })

/-- The results of up to `n` successive calls `it.Next()` by the holder of the
iterator; calling stops at a panic. -/
def FileCollectionEntityIterator.nextCalls {Item : Type} :
    Nat → FileCollectionEntityIterator Item → List (Res (Option Entity × Option LayerError))
  | 0, _ => []
  | n + 1, f =>
    match f.callNext.1 with
    | Res.panic msg => [Res.panic msg]
    | Res.val r => Res.val r :: FileCollectionEntityIterator.nextCalls n f.callNext.2

/-- `func (f FileCollectionEntityIterator) Token() (*egdm.Continuation, layer.LayerError)`:
`panic("implement me")`. The continuation is represented by its token string. -/
def FileCollectionEntityIterator.Token {Item : Type} (_f : FileCollectionEntityIterator Item) :
    Res (Option String × Option LayerError) :=
  Res.panic "implement me"

/-- `func (f FileCollectionEntityIterator) Close() layer.LayerError`: `panic("implement me")`. -/
def FileCollectionEntityIterator.Close {Item : Type} (_f : FileCollectionEntityIterator Item) :
    Res (Option LayerError) :=
  Res.panic "implement me"

/-! ## sample/filesystem_datalayer.go: FileSystemDataset.Changes -/

/-- The fields of `layer.DatasetDefinition` that the sources read by name:
`DatasetName` and `Mappings`. Its `SourceConfig` and `OutgoingMappingConfig`
are only handed on to collaborators (see `World.newMapper`). -/
structure DatasetDefinition where
  DatasetName : String
  Mappings : List EntityPropertyMapping

/-- What `FileSystemDataset.Changes` asks of the operating system, the standard
library and the `layer` package.
* `pathExists`: `os.Stat(f.path)` does not report that the path is missing.
* `readDir`: the entries `os.ReadDir(f.path)` returns, `none` for an error.
* `fileMatch pattern name`: `filepath.Match`, `none` for a malformed pattern.
* `timeParse`: `time.Parse("2006-01-02T15:04:05Z07:00", value)`, `none` for a
  value that is not in that layout.
* `newMapper`: the `MapItemToEntity` of the mapper that `layer.NewMapper` builds
  from the `OutgoingMappingConfig` of a dataset definition. -/
structure World (Item : Type) where
  pathExists : Bool
  readDir : Option (List (DirEntry Item))
  fileMatch : String → String → Option Bool
  timeParse : String → Option Time
  newMapper : DatasetDefinition → Item → Entity → Except String Entity

/-- The struct `FileSystemDataset` (without its logger). -/
structure FileSystemDataset where
  name : String
  datasetDefinition : Option DatasetDefinition
  path : String
  filePattern : String
  supportSinceByFileTimestamp : Bool
  supportSinceByDataProperty : String
  isDeletedProperty : String

/-- `func (f FileSystemDataset) Name() string`. -/
def FileSystemDataset.Name (f : FileSystemDataset) : String := f.name

/-- Lines 110-134 of `Changes`: the loop `for _, file := range files` over the
entries that remain, with `dataFiles` as collected so far. The error of
`time.Parse` is overwritten unread, so a `since` that does not parse counts as
the zero time. -/
def FileSystemDataset.selectFiles {Item : Type} (w : World Item) (f : FileSystemDataset)
    (since : String) : List (DirEntry Item) → List (DirEntry Item) →
      Except LayerError (List (DirEntry Item))
  | [], dataFiles => Except.ok dataFiles
  | file :: rest, dataFiles =>
    match w.fileMatch f.filePattern file.name with
    | none =>
        Except.error { tag := LayerErrorType.Internal, msg := "could not match file pattern %s" }
    | some isMatch =>
      if isMatch then
        if f.supportSinceByFileTimestamp && since != "" then
          let sinceTime := (w.timeParse since).getD zeroTime
          match file.info with
          | none =>
              Except.error { tag := LayerErrorType.Internal, msg := "could not get file info for %s" }
          | some fileModTime =>
            if fileModTime > sinceTime then
              FileSystemDataset.selectFiles w f since rest (dataFiles ++ [file])
            else
              FileSystemDataset.selectFiles w f since rest dataFiles
        else
          FileSystemDataset.selectFiles w f since rest (dataFiles ++ [file])
      else
        FileSystemDataset.selectFiles w f since rest dataFiles

/-- The slice after `data[j], data[j+1] = data[j+1], data[j]`. -/
def swapAdjacent {α : Type} : List α → Nat → List α
  | a :: b :: t, 0 => b :: a :: t
  | a :: t, j + 1 => a :: swapAdjacent t j
  | data, _ => data

/-- The inner loop of the insertion sort of package `sort`,
`for j := i; j > 0 && less(j, j-1); j-- { swap(j, j-1) }`, entered at `j`. -/
def insertionInner {α : Type} (less : Nat → Nat → Res Bool) : Nat → List α → Res (List α)
  | 0, data => Res.val data
  | j + 1, data =>
    match less (j + 1) j with
    | Res.panic msg => Res.panic msg
    | Res.val false => Res.val data
    | Res.val true => insertionInner less j (swapAdjacent data j)

/-- The outer loop of the insertion sort, `for i := 1; i < n; i++`, entered at `i`
with `todo` rounds to go. -/
def insertionOuter {α : Type} (less : Nat → Nat → Res Bool) : Nat → Nat → List α → Res (List α)
  | _, 0, data => Res.val data
  | i, todo + 1, data =>
    match insertionInner less i data with
    | Res.panic msg => Res.panic msg
    | Res.val data1 => insertionOuter less (i + 1) todo data1

/-- The call `sort.Slice(data, less)` of the standard library, where `less` sees
two indices. On a slice of at most 12 elements `sort.Slice` runs the insertion
sort below (from length 7 on, releases before Go 1.19 first run one pass of
compare-and-swap at distance 6); this model runs it on every length. -/
def sortSlice {α : Type} (data : List α) (less : Nat → Nat → Res Bool) : Res (List α) :=
  insertionOuter less 1 (data.length - 1) data

/-- The `less` closure of `Changes`, lines 138-142: it compares
`files[i].Info()` with `files[j].Info()`, where `files` is the whole directory
listing, and drops the errors of `Info`, so a failed `Info` is a nil
dereference at `ModTime()`. -/
def FileSystemDataset.changesLess {Item : Type} (files : List (DirEntry Item)) (i j : Nat) :
    Res Bool :=
  match files.get? i, files.get? j with
  | some e1, some e2 =>
    match e1.info, e2.info with
    | some t1, some t2 => Res.val (decide (t1 < t2))
    | _, _ => Res.panic "invalid memory address or nil pointer dereference"
  | _, _ => Res.panic "index out of range"

/-- `func (f FileSystemDataset) Changes(since string, limit int, latestOnly bool)
(layer.EntityIterator, layer.LayerError)`. -/
def FileSystemDataset.Changes {Item : Type} (w : World Item) (f : FileSystemDataset)
    (since : String) (_limit : Int) (_latestOnly : Bool) :
    Res (Option (FileCollectionEntityIterator Item) × Option LayerError) :=
  if !w.pathExists then
    Res.val (none, some { tag := LayerErrorType.BadParameter, msg := "path %s does not exist" })
  else
    match w.readDir with
    | none =>
        Res.val (none, some { tag := LayerErrorType.BadParameter,
                              msg := "could not read directory %s" })
    | some files =>
      match FileSystemDataset.selectFiles w f since files [] with
      | Except.error e => Res.val (none, some e)
      | Except.ok dataFiles =>
        let sorted :=
          if dataFiles.length > 0 then
            sortSlice dataFiles (FileSystemDataset.changesLess files)
          else Res.val dataFiles
        match sorted with
        | Res.panic msg => Res.panic msg
        | Res.val dataFiles1 =>
          match f.datasetDefinition with
          | none => Res.panic "invalid memory address or nil pointer dereference"
          | some dd =>
            Res.val (some (NewFileCollectionEntityIterator f.path dataFiles1 (w.newMapper dd) ""
              none), none)

/-! ## sample/sample_data_layer.go -/

/-- The struct `DataObject`: `ID string` and `Props map[string]any`. -/
structure DataObject where
  ID : String
  Props : Option GoMap

/-- The two calls of `encoding/json` on a `DataObject`, over a type `Bytes` of
serialized records: `json.Marshal(d)` and `json.Unmarshal(b, &obj)` into a
zero `DataObject` (`none` when it returns an error). -/
structure JsonCodec (Bytes : Type) where
  marshal : DataObject → Bytes
  unmarshal : Bytes → Option DataObject

/-- `func (d *DataObject) AsBytes() []byte`. -/
def DataObject.AsBytes {Bytes : Type} (json : JsonCodec Bytes) (d : DataObject) : Bytes :=
  json.marshal d

/-- The struct `SampleDataset`. -/
structure SampleDataset (Bytes : Type) where
  dsName : String
  mappings : List EntityPropertyMapping
  data : List Bytes

/-- `func (ds *SampleDataset) Write(item layer.Item) layer.LayerError`, for an
item that is a `DataItem`: the returned error (always nil) or a panic of the
type assertion `.(string)`, and the dataset after the call. -/
def SampleDataset.Write {Bytes : Type} (json : JsonCodec Bytes) (ds : SampleDataset Bytes)
    (item : DataItem) : Res (Option LayerError) × SampleDataset Bytes :=
  match item.GetValue "id" with
  | Value.null =>
      (Res.val none,
        { ds with data := ds.data ++ [DataObject.AsBytes json { ID := "", Props := item.GetRaw }] })
  | Value.str s =>
      (Res.val none,
        { ds with data := ds.data ++ [DataObject.AsBytes json { ID := s, Props := item.GetRaw }] })
  | _ => (Res.panic "interface conversion: interface {} is not string", ds)

/-- `func (ds *SampleDataset) Name() string`. -/
def SampleDataset.Name {Bytes : Type} (ds : SampleDataset Bytes) : String := ds.dsName

/-- `func (ds *SampleDataset) BeginFullSync() layer.LayerError`: `return nil`. -/
def SampleDataset.BeginFullSync {Bytes : Type} (ds : SampleDataset Bytes) :
    Option LayerError × SampleDataset Bytes := (none, ds)

/-- `func (ds *SampleDataset) CompleteFullSync() layer.LayerError`: `return nil`. -/
def SampleDataset.CompleteFullSync {Bytes : Type} (ds : SampleDataset Bytes) :
    Option LayerError × SampleDataset Bytes := (none, ds)

/-- `func (ds *SampleDataset) CancelFullSync() layer.LayerError`: `return nil`. -/
def SampleDataset.CancelFullSync {Bytes : Type} (ds : SampleDataset Bytes) :
    Option LayerError × SampleDataset Bytes := (none, ds)

/-- The struct `DataObjectIterator`. -/
structure DataObjectIterator (Bytes : Type) where
  objects : List Bytes
  pos : Nat

/-- `func NewDataObjectIterator(objects [][]byte) *DataObjectIterator`. -/
def NewDataObjectIterator {Bytes : Type} (objects : List Bytes) : DataObjectIterator Bytes :=
  { objects := objects, pos := 0 }

/-- `func (doi *DataObjectIterator) Next() layer.Item`, with the iterator after the
call. It panics on a record that does not decode, and at `SetValue` when the
decoded `Props` is a nil map. -/
def DataObjectIterator.Next {Bytes : Type} (json : JsonCodec Bytes) (doi : DataObjectIterator Bytes) :
    Res (Option DataItem) × DataObjectIterator Bytes :=
  match doi.objects.get? doi.pos with
  | none => (Res.val none, doi)
  | some b =>
    let doi1 := { doi with pos := doi.pos + 1 }
    match json.unmarshal b with
    | none => (Res.panic "json: cannot unmarshal", doi1)
    | some obj =>
      let res := DataItem.PutRaw { raw := none } obj.Props
      match res.SetValue "id" (Value.str obj.ID) with
      | Res.panic msg => (Res.panic msg, doi1)
      | Res.val res1 => (Res.val (some res1), doi1)

/-- `func (ds *SampleDataset) Changes(since string, take int, _ bool)
(layer.EntityIterator, layer.LayerError)`. `genericMapper` is the `ItemToEntity`
of the mapper that `NewGenericEntityMapper(ds.mappings)` builds, inside
`layer.NewMappingEntityIterator`. -/
def SampleDataset.Changes {Bytes : Type} (json : JsonCodec Bytes)
    (genericMapper : List EntityPropertyMapping → DataItem → Option Entity)
    (ds : SampleDataset Bytes) (_since : String) (_take : Int) (_latestOnly : Bool) :
    Option (MappingEntityIterator (DataObjectIterator Bytes) DataItem Entity) × Option LayerError :=
  (some { mapper := genericMapper ds.mappings,
          rowNext := DataObjectIterator.Next json,
          rowIterator := NewDataObjectIterator ds.data }, none)

/-- The entities that a consumer obtains from an entity iterator: it calls
`Next` until the first nil (or panic), at most `fuel` times. -/
def MappingEntityIterator.drain {σ Item Ent : Type} :
    Nat → MappingEntityIterator σ Item Ent → List Ent
  | 0, _ => []
  | fuel + 1, m =>
    match m.Next.result with
    | Res.val (some e) => e :: MappingEntityIterator.drain fuel m.Next.iter
    | _ => []

/-- The record that `Write` appends for an item: the serialized `DataObject` whose
`ID` is the string field `id` of the item (empty when the item has none) and
whose `Props` is the raw map of the item. -/
def SampleDataset.recordOf {Bytes : Type} (json : JsonCodec Bytes) (item : DataItem) : Bytes :=
  DataObject.AsBytes json
    { ID := (match item.GetValue "id" with
             | Value.str s => s
             | _ => ""),
      Props := item.GetRaw }

/-- The dataset after `Write` for each item of the list in turn; `none` when a
`Write` panics. -/
def SampleDataset.writeAll {Bytes : Type} (json : JsonCodec Bytes) :
    List DataItem → SampleDataset Bytes → Option (SampleDataset Bytes)
  | [], ds => some ds
  | item :: rest, ds =>
    match SampleDataset.Write json ds item with
    | (Res.val _, ds1) => SampleDataset.writeAll json rest ds1
    | (Res.panic _, _) => none

/-- The dataset after `BeginFullSync`, `Write` for each item, `CancelFullSync`;
`none` when a `Write` panics. -/
def SampleDataset.cancelledFullSync {Bytes : Type} (json : JsonCodec Bytes)
    (items : List DataItem) (ds : SampleDataset Bytes) : Option (SampleDataset Bytes) :=
  match SampleDataset.writeAll json items (SampleDataset.BeginFullSync ds).2 with
  | none => none
  | some ds1 => some (SampleDataset.CancelFullSync ds1).2

/-- The items that the underlying item iterator yields before its first nil (or
panic), within `fuel` calls. -/
def rowItems {σ Item : Type} (rowNext : σ → Res (Option Item) × σ) : Nat → σ → List Item
  | 0, _ => []
  | fuel + 1, s =>
    match rowNext s with
    | (Res.val (some i), s1) => i :: rowItems rowNext fuel s1
    | _ => []

/-- `func NewMappingEntityIterator(mappings, itemIterator, customMapping)
*MappingEntityIterator`. `genericMapper` is the `ItemToEntity` of the mapper that
`NewGenericEntityMapper(mappings)` builds; `rowNext` is the `Next` method of
`itemIterator`. The function has no error result. -/
def NewMappingEntityIterator {σ Item Ent : Type}
    (genericMapper : List EntityPropertyMapping → Item → Option Ent)
    (mappings : List EntityPropertyMapping) (rowNext : σ → Res (Option Item) × σ)
    (itemIterator : σ) : MappingEntityIterator σ Item Ent :=
  { mapper := genericMapper mappings, rowNext := rowNext, rowIterator := itemIterator }

/-- The value that the loop of `EntityToItem` writes for one rule: `entity.ID` for
an identity rule, `entity.Properties[mapping.EntityProperty]` otherwise. -/
def DefaultItemMapper.ruleValue (entity : Entity) (mapping : EntityPropertyMapping) : Value :=
  if mapping.IsIdentity then Value.str entity.ID
  else mapIndex entity.Properties mapping.EntityProperty

/-- The map after the writes `raw[mapping.Property] = value` of the rules, in
order, starting from the map `m`. -/
def DefaultItemMapper.writes (entity : Entity) : List EntityPropertyMapping → GoMap → GoMap
  | [], m => m
  | mapping :: rest, m =>
    DefaultItemMapper.writes entity rest
      (m.set mapping.Property (DefaultItemMapper.ruleValue entity mapping))

/-- The iterator after `k` successive calls of `DataObjectIterator.Next`. -/
def DataObjectIterator.after {Bytes : Type} (json : JsonCodec Bytes) :
    Nat → DataObjectIterator Bytes → DataObjectIterator Bytes
  | 0, doi => doi
  | k + 1, doi => DataObjectIterator.after json k (DataObjectIterator.Next json doi).2

/-- The result of call number `k + 1` of `Next` on a fresh `DataObjectIterator` over
the records of the dataset. -/
def SampleDataset.readBack {Bytes : Type} (json : JsonCodec Bytes) (ds : SampleDataset Bytes)
    (k : Nat) : Res (Option DataItem) :=
  (DataObjectIterator.Next json
    (DataObjectIterator.after json k (NewDataObjectIterator ds.data))).1

/-! ## The data layers and their dataset registries -/

/-- The field of `layer.Config` that the data layers read: `DatasetDefinitions`. -/
structure Config where
  DatasetDefinitions : List DatasetDefinition

/-- The struct `FileSystemDataLayer` (without logger and metrics); `datasets` is
the Go map from dataset name to dataset. -/
structure FileSystemDataLayer where
  config : Config
  datasets : String → Option FileSystemDataset

/-- The loop `for _, dataset := range conf.DatasetDefinitions` of
`NewFileSystemDataLayer` and of `UpdateConfiguration`: each definition
registers `&FileSystemDataset{name: dataset.DatasetName, datasetDefinition: dataset}`
under its name. -/
def FileSystemDataLayer.registerAll :
    List DatasetDefinition → (String → Option FileSystemDataset) →
      (String → Option FileSystemDataset)
  | [], datasets => datasets
  | dataset :: rest, datasets =>
    FileSystemDataLayer.registerAll rest (fun k =>
      if k = dataset.DatasetName then
        some { name := dataset.DatasetName, datasetDefinition := some dataset, path := "",
               filePattern := "", supportSinceByFileTimestamp := false,
               supportSinceByDataProperty := "", isDeletedProperty := "" }
      else datasets k)

/-- `func NewFileSystemDataLayer(conf, logger, metrics) (layer.DataLayerService, error)`:
the layer; the error is always nil. -/
def NewFileSystemDataLayer (conf : Config) : FileSystemDataLayer × Option String :=
  ({ config := conf,
     datasets := FileSystemDataLayer.registerAll conf.DatasetDefinitions (fun _ => none) }, none)

/-- `func (dl *FileSystemDataLayer) UpdateConfiguration(config *layer.Config) layer.LayerError`,
with the layer after the call. -/
def FileSystemDataLayer.UpdateConfiguration (_dl : FileSystemDataLayer) (config : Config) :
    Option LayerError × FileSystemDataLayer :=
  (none, { config := config,
           datasets := FileSystemDataLayer.registerAll config.DatasetDefinitions (fun _ => none) })

/-- `func (dl *FileSystemDataLayer) Dataset(dataset string) (layer.Dataset, layer.LayerError)`:
`&FileSystemDataset{name: dataset}`, every other field at its zero value. -/
def FileSystemDataLayer.Dataset (_dl : FileSystemDataLayer) (dataset : String) :
    Option FileSystemDataset × Option LayerError :=
  (some { name := dataset, datasetDefinition := none, path := "", filePattern := "",
          supportSinceByFileTimestamp := false, supportSinceByDataProperty := "",
          isDeletedProperty := "" }, none)

/-- The struct `SampleDataLayer` (without logger and metrics). -/
structure SampleDataLayer (Bytes : Type) where
  config : Config
  datasets : String → Option (SampleDataset Bytes)

/-- `func (dl *SampleDataLayer) Dataset(dataset string) (layer.Dataset, layer.LayerError)`;
the error is built by `layer.Errorf(layer.LayerErrorBadParameter, ...)`. -/
def SampleDataLayer.Dataset {Bytes : Type} (dl : SampleDataLayer Bytes) (dataset : String) :
    Option (SampleDataset Bytes) × Option LayerError :=
  match dl.datasets dataset with
  | some ds => (some ds, none)
  | none => (none, some { tag := LayerErrorType.BadParameter, msg := "dataset %s not found" })

/-! ## Concrete inputs used by the examples -/

/-- A mapper over items that are strings: it fails on the item `"bad"` and
otherwise stores the item as the ID of the entity. -/
def demoMapper : String → Entity → Except String Entity :=
  fun item entity => if item = "bad" then Except.error "bad item" else Except.ok { entity with ID := item }

/-- A file that opens, holds the given items and closes without error. -/
def demoFile (name : String) (modTime : Time) (items : List String) : DirEntry String :=
  { name := name, info := some modTime,
    opened := OpenResult.reader { pending := items.map ReadResult.item, closeErr := none } }

/-- The entity `demoMapper` makes of an item. -/
def demoEntity (item : String) : Entity := { ID := item, Properties := some GoMap.empty }

/-- An item iterator over a list of numbers: the state is the numbers to come. -/
def listRowNext : List Nat → Res (Option Nat) × List Nat
  | [] => (Res.val none, [])
  | i :: rest => (Res.val (some i), rest)

/-- A stand-in for `filepath.Match` in the examples: the pattern `[` is
malformed, the pattern `*` matches every name, any other pattern matches the
name equal to it. -/
def demoMatch (pattern name : String) : Option Bool :=
  if pattern = "[" then none else some (decide (pattern = "*") || decide (name = pattern))

/-- A stand-in for `time.Parse` in the examples: it knows the instants one, two
and three seconds after the zero time. -/
def demoTimeParse (value : String) : Option Time :=
  if value = "0001-01-01T00:00:01Z" then some 1000000000
  else if value = "0001-01-01T00:00:02Z" then some 2000000000
  else if value = "0001-01-01T00:00:03Z" then some 3000000000
  else none

/-- A world in which the directory exists and lists the given entries. -/
def demoWorld (files : List (DirEntry String)) : World String :=
  { pathExists := true, readDir := some files, fileMatch := demoMatch,
    timeParse := demoTimeParse, newMapper := fun _ => demoMapper }

/-- A dataset over the directory `dir`. -/
def demoDataset (filePattern : String) (supportSince : Bool) : FileSystemDataset :=
  { name := "files", datasetDefinition := some { DatasetName := "files", Mappings := [] },
    path := "dir", filePattern := filePattern, supportSinceByFileTimestamp := supportSince,
    supportSinceByDataProperty := "", isDeletedProperty := "" }

/-- Three files modified one, two and three seconds after the zero time. -/
def demoListingAscending : List (DirEntry String) :=
  [demoFile "a.json" 1000000000 ["a1"], demoFile "b.json" 2000000000 ["b1"],
   demoFile "c.json" 3000000000 ["c1"]]

/-- Three files, listed by name, modified two, three and one second after the zero
time. -/
def demoListingUnordered : List (DirEntry String) :=
  [demoFile "a.json" 2000000000 ["a1"], demoFile "b.json" 3000000000 ["b1"],
   demoFile "c.json" 1000000000 ["c1"]]

/-- A file that cannot be opened. -/
def demoBrokenFile (name : String) (modTime : Time) : DirEntry String :=
  { name := name, info := some modTime, opened := OpenResult.openFails }

/-- An iterator over three files of which the second cannot be opened, with the
unit pointer at the second file and no reader open. -/
def demoIteratorAtBrokenUnit : FileCollectionEntityIterator String :=
  { mapper := demoMapper, token := "", since := none, path := "dir",
    files := [demoFile "a.json" 1 ["a1"], demoBrokenFile "b.json" 2, demoFile "c.json" 3 ["c1"]],
    filesIndex := 1, currentItemReader := none }

/-- An iterator as `NewFileCollectionEntityIterator` builds it over one file whose
first item fails to map and whose second item maps. -/
def demoIteratorBadItem : FileCollectionEntityIterator String :=
  NewFileCollectionEntityIterator "dir" [demoFile "a.json" 1 ["bad", "good"]] demoMapper "" none

/-- A mapping iterator over the items 4, 5 whose mapper doubles an item. -/
def demoMappingIterator : MappingEntityIterator (List Nat) Nat Nat :=
  { mapper := fun i => some (2 * i), rowNext := listRowNext, rowIterator := [4, 5] }

/-- A codec for the examples: a serialized record is the data object itself, so
that every record decodes to the object that was encoded. -/
def idealJson : JsonCodec DataObject :=
  { marshal := fun d => d, unmarshal := fun b => some b }

/-- A stand-in for the mapper of `NewGenericEntityMapper` in the examples: the
entity takes the string field `id` of the item as its ID and the fields of the
item as its properties. -/
def demoGenericMapper (_mappings : List EntityPropertyMapping) (item : DataItem) : Option Entity :=
  some { ID := (match item.GetValue "id" with
                | Value.str s => s
                | _ => ""),
         Properties := item.GetRaw }

/-- A data object with the given ID and one property `name`. -/
def demoObject (id name : String) : DataObject :=
  { ID := id, Props := some (GoMap.empty.set "name" (Value.str name)) }

/-- A sample dataset holding two records. -/
def demoSampleDataset : SampleDataset DataObject :=
  { dsName := "sample", mappings := [],
    data := [DataObject.AsBytes idealJson (demoObject "ID0" "name0"),
             DataObject.AsBytes idealJson (demoObject "ID1" "name1")] }

/-- An item with the fields `id` = ID2 and `name` = name2. -/
def demoItem : DataItem :=
  { raw := some ((GoMap.empty.set "id" (Value.str "ID2")).set "name" (Value.str "name2")) }

/-- An entity with the ID e1 and the properties a = 1 and b = 2. -/
def demoEntityAB : Entity :=
  { ID := "e1",
    Properties := some ((GoMap.empty.set "a" (Value.int 1)).set "b" (Value.int 2)) }

/-- Two rules that both write the field x: the first from the property a, the
second from the property b. -/
def demoRulesSameProperty : List EntityPropertyMapping :=
  [{ Property := "x", EntityProperty := "a", IsIdentity := false },
   { Property := "x", EntityProperty := "b", IsIdentity := false }]

/-- Two identity rules, writing the fields id and key. -/
def demoRulesTwoIdentities : List EntityPropertyMapping :=
  [{ Property := "id", EntityProperty := "", IsIdentity := true },
   { Property := "key", EntityProperty := "", IsIdentity := true }]

/-- One rule, not an identity rule: the field x from the property a. -/
def demoRulesNoIdentity : List EntityPropertyMapping :=
  [{ Property := "x", EntityProperty := "a", IsIdentity := false }]

/-- An item whose field `id` holds the number 42. -/
def demoItemNumericId : DataItem :=
  { raw := some (GoMap.empty.set "id" (Value.int 42)) }

/-- An iterator over three files: the reader of the first file a.json is open and
exhausted, the second file b.json is empty, the third file c.json holds the
item c1. -/
def demoIteratorBeforeEmptyUnit : FileCollectionEntityIterator String :=
  { mapper := demoMapper, token := "", since := none, path := "dir",
    files := [demoFile "a.json" 1 ["a1"], demoFile "b.json" 2 [], demoFile "c.json" 3 ["c1"]],
    filesIndex := 0, currentItemReader := some { pending := [], closeErr := none } }

/-- A configuration that defines the one dataset `files`. -/
def demoConfig : Config :=
  { DatasetDefinitions := [{ DatasetName := "files", Mappings := [] }] }

/-- A sample data layer in which the one dataset `sample` is registered. -/
def demoSampleLayer : SampleDataLayer DataObject :=
  { config := demoConfig,
    datasets := fun k => if k = "sample" then some demoSampleDataset else none }

/-- An iterator over three files of which the second cannot be opened, with the
unit pointer at the first file, whose reader is open and exhausted. -/
def demoIteratorBeforeBrokenUnit : FileCollectionEntityIterator String :=
  { mapper := demoMapper, token := "", since := none, path := "dir",
    files := [demoFile "a.json" 1 ["a1"], demoBrokenFile "b.json" 2, demoFile "c.json" 3 ["c1"]],
    filesIndex := 0, currentItemReader := some { pending := [], closeErr := none } }

/-! ## Lemmas -/

theorem nextCalls_unopened {Item : Type} (f : FileCollectionEntityIterator Item)
    (h : f.currentItemReader = none) (r : Option Entity × Option LayerError)
    (hr : f.Next.result = Res.val r) (n : Nat) :
    FileCollectionEntityIterator.nextCalls n f = List.replicate n (Res.val r) := by
  have hcall : f.callNext = (Res.val r, f) := by
    cases f with
    | mk mapper token since path files filesIndex cur =>
      simp only at h
      subst h
      simp [FileCollectionEntityIterator.callNext, hr]
  induction n with
  | zero => rfl
  | succ k ih =>
    simp [FileCollectionEntityIterator.nextCalls, hcall, ih, List.replicate_succ]

theorem entityToItemLoop_spec (e : Entity) (rules : List EntityPropertyMapping) :
    ∀ (m : GoMap), (rules.map (fun r => r.Property)).Nodup →
      ∃ m2 : GoMap,
        DefaultItemMapper.EntityToItemLoop e rules { raw := some m } = Res.val { raw := some m2 } ∧
        (∀ r ∈ rules, m2 r.Property =
          some (if r.IsIdentity then Value.str e.ID else mapIndex e.Properties r.EntityProperty)) ∧
        (∀ k, k ∉ rules.map (fun r => r.Property) → m2 k = m k) := by
  induction rules with
  | nil =>
    intro m _
    exact ⟨m, rfl, by simp, by simp⟩
  | cons r rest ih =>
    intro m hnd
    rw [List.map_cons, List.nodup_cons] at hnd
    obtain ⟨hnotin, hrest⟩ := hnd
    obtain ⟨m2, hrun, hval, hframe⟩ :=
      ih (m.set r.Property
        (if r.IsIdentity then Value.str e.ID else mapIndex e.Properties r.EntityProperty)) hrest
    refine ⟨m2, ?_, ?_, ?_⟩
    · rw [← hrun]
      cases hid : r.IsIdentity <;>
        simp [DefaultItemMapper.EntityToItemLoop, DataItem.SetValue, hid]
    · intro r2 hr2
      rcases List.mem_cons.mp hr2 with h | h
      · subst h
        rw [hframe _ hnotin]
        simp [GoMap.set]
      · exact hval r2 h
    · intro k hk
      rw [List.map_cons, List.mem_cons, not_or] at hk
      rw [hframe k hk.2]
      simp [GoMap.set, hk.1]

/-- When `selectFiles` returns without error, it has appended to `acc`, in listing
order, the entries whose name matches the pattern and, when since-filtering
is on, whose modification time is after the parsed `since`. -/
theorem selectFiles_eq {Item : Type} (w : World Item) (f : FileSystemDataset) (since : String)
    (files : List (DirEntry Item)) :
    ∀ (acc out : List (DirEntry Item)),
      FileSystemDataset.selectFiles w f since files acc = Except.ok out →
      out = acc ++ files.filter (fun e =>
        (w.fileMatch f.filePattern e.name == some true) &&
          (if f.supportSinceByFileTimestamp && since != "" then
            e.info.any (fun mt => decide ((w.timeParse since).getD zeroTime < mt))
           else true)) := by
  induction files with
  | nil =>
    intro acc out h
    simp [FileSystemDataset.selectFiles] at h
    simp [h]
  | cons file rest ih =>
    intro acc out h
    unfold FileSystemDataset.selectFiles at h
    cases hm : w.fileMatch f.filePattern file.name with
    | none => simp [hm] at h
    | some isMatch =>
      cases isMatch with
      | false =>
        simp only [hm] at h
        have := ih acc out (by simpa using h)
        simp [this, List.filter_cons, hm]
      | true =>
        simp only [hm] at h
        cases hmode : (f.supportSinceByFileTimestamp && since != "") with
        | false =>
          simp only [hmode] at h
          have := ih (acc ++ [file]) out (by simpa using h)
          simp [this, List.filter_cons, hm, hmode]
        | true =>
          simp only [hmode] at h
          cases hinfo : file.info with
          | none => simp [hinfo] at h
          | some mt =>
            simp only [hinfo, if_true] at h
            by_cases hlt : mt > (w.timeParse since).getD zeroTime
            · simp only [hlt, if_true] at h
              have := ih (acc ++ [file]) out h
              have hlt2 : (w.timeParse since).getD zeroTime < mt := hlt
              simp [this, List.filter_cons, hm, hmode, hinfo, hlt2]
            · simp only [hlt, if_false] at h
              have := ih acc out h
              have hlt2 : ¬ (w.timeParse since).getD zeroTime < mt := hlt
              simp [this, List.filter_cons, hm, hmode, hinfo, hlt2]

theorem selectFiles_total {Item : Type} (w : World Item) (f : FileSystemDataset) (since : String)
    (files : List (DirEntry Item))
    (hmatch : ∀ e ∈ files, w.fileMatch f.filePattern e.name ≠ none)
    (hinfo : ∀ e ∈ files, e.info ≠ none) :
    ∀ (acc : List (DirEntry Item)),
      ∃ out, FileSystemDataset.selectFiles w f since files acc = Except.ok out := by
  induction files with
  | nil => intro acc; exact ⟨acc, rfl⟩
  | cons file rest ih =>
    intro acc
    have ihr := ih (fun e he => hmatch e (List.mem_cons_of_mem _ he))
      (fun e he => hinfo e (List.mem_cons_of_mem _ he))
    unfold FileSystemDataset.selectFiles
    cases hm : w.fileMatch f.filePattern file.name with
    | none => exact absurd hm (hmatch file (List.mem_cons_self _ _))
    | some isMatch =>
      cases hi : file.info with
      | none => exact absurd hi (hinfo file (List.mem_cons_self _ _))
      | some mt =>
        cases isMatch with
        | false => simpa using ihr acc
        | true =>
          cases hmode : (f.supportSinceByFileTimestamp && since != "") with
          | false => simpa [hmode] using ihr (acc ++ [file])
          | true =>
            by_cases hlt : mt > (w.timeParse since).getD zeroTime
            · simpa [hmode, hlt] using ihr (acc ++ [file])
            · simpa [hmode, hlt] using ihr acc

theorem swapAdjacent_perm {α : Type} (data : List α) (j : Nat) :
    (swapAdjacent data j).Perm data := by
  induction data generalizing j with
  | nil => cases j <;> exact List.Perm.refl _
  | cons a t ih =>
    cases j with
    | zero =>
      cases t with
      | nil => exact List.Perm.refl _
      | cons b t2 => exact List.Perm.swap a b t2
    | succ k =>
      have hstep : swapAdjacent (a :: t) (k + 1) = a :: swapAdjacent t k := by
        cases t <;> rfl
      rw [hstep]
      exact List.Perm.cons a (ih k)

theorem swapAdjacent_length {α : Type} (data : List α) (j : Nat) :
    (swapAdjacent data j).length = data.length :=
  (swapAdjacent_perm data j).length_eq

theorem insertionInner_perm {α : Type} (less : Nat → Nat → Res Bool) (j : Nat) :
    ∀ (data out : List α), insertionInner less j data = Res.val out → out.Perm data := by
  induction j with
  | zero =>
    intro data out h
    simp [insertionInner] at h
    rw [h]
  | succ k ih =>
    intro data out h
    unfold insertionInner at h
    split at h
    · exact Res.noConfusion h
    · injection h with h
      rw [h]
    · exact (ih _ _ h).trans (swapAdjacent_perm data k)

theorem insertionOuter_perm {α : Type} (less : Nat → Nat → Res Bool) (todo : Nat) :
    ∀ (i : Nat) (data out : List α),
      insertionOuter less i todo data = Res.val out → out.Perm data := by
  induction todo with
  | zero =>
    intro i data out h
    simp [insertionOuter] at h
    rw [h]
  | succ k ih =>
    intro i data out h
    unfold insertionOuter at h
    split at h
    · exact Res.noConfusion h
    · rename_i data1 h1
      exact (ih _ _ _ h).trans (insertionInner_perm less i data data1 h1)

theorem sortSlice_perm {α : Type} (less : Nat → Nat → Res Bool) (data out : List α)
    (h : sortSlice data less = Res.val out) : out.Perm data :=
  insertionOuter_perm less _ _ _ _ h

theorem insertionInner_total {α : Type} (less : Nat → Nat → Res Bool) (bound : Nat)
    (hless : ∀ a b, a < bound → b < bound → ∃ v, less a b = Res.val v) (j : Nat) :
    ∀ (data : List α), j < bound → ∃ out, insertionInner less j data = Res.val out := by
  induction j with
  | zero => intro data _; exact ⟨data, rfl⟩
  | succ k ih =>
    intro data hj
    obtain ⟨v, hv⟩ := hless (k + 1) k hj (by omega)
    unfold insertionInner
    rw [hv]
    cases v with
    | false => exact ⟨data, rfl⟩
    | true => exact ih _ (by omega)

theorem insertionOuter_total {α : Type} (less : Nat → Nat → Res Bool) (bound : Nat)
    (hless : ∀ a b, a < bound → b < bound → ∃ v, less a b = Res.val v) (todo : Nat) :
    ∀ (i : Nat) (data : List α), i + todo ≤ bound →
      ∃ out, insertionOuter less i todo data = Res.val out := by
  induction todo with
  | zero => intro i data _; exact ⟨data, rfl⟩
  | succ k ih =>
    intro i data hb
    obtain ⟨d1, hd1⟩ := insertionInner_total less bound hless i data (by omega)
    unfold insertionOuter
    rw [hd1]
    exact ih (i + 1) d1 (by omega)

theorem changesLess_total {Item : Type} (files : List (DirEntry Item))
    (hinfo : ∀ e ∈ files, e.info ≠ none) (a b : Nat) (ha : a < files.length)
    (hb : b < files.length) : ∃ v, FileSystemDataset.changesLess files a b = Res.val v := by
  unfold FileSystemDataset.changesLess
  have h1 : files.get? a = some (files.get ⟨a, ha⟩) := List.get?_eq_get ha
  have h2 : files.get? b = some (files.get ⟨b, hb⟩) := List.get?_eq_get hb
  rw [h1, h2]
  have i1 := hinfo _ (List.get_mem files a ha)
  have i2 := hinfo _ (List.get_mem files b hb)
  cases e1 : (files.get ⟨a, ha⟩).info with
  | none => exact absurd e1 i1
  | some t1 =>
    cases e2 : (files.get ⟨b, hb⟩).info with
    | none => exact absurd e2 i2
    | some t2 => exact ⟨decide (t1 < t2), by simp only [e1, e2]⟩

/-- What `Changes` returns when it returns an iterator: the files of the iterator
are a rearrangement of what `selectFiles` collected from the listing. -/
theorem changes_files_perm {Item : Type} (w : World Item) (f : FileSystemDataset)
    (since : String) (limit : Int) (latestOnly : Bool) (it : FileCollectionEntityIterator Item)
    (h : FileSystemDataset.Changes w f since limit latestOnly = Res.val (some it, none)) :
    ∃ files dataFiles, w.readDir = some files ∧
      FileSystemDataset.selectFiles w f since files [] = Except.ok dataFiles ∧
      it.files.Perm dataFiles := by
  unfold FileSystemDataset.Changes at h
  split at h
  · simp at h
  · split at h
    · simp at h
    · rename_i files hfiles
      split at h
      · simp at h
      · rename_i dataFiles hsel
        refine ⟨files, dataFiles, hfiles, hsel, ?_⟩
        by_cases hlen : dataFiles.length > 0
        · simp only [hlen, if_true] at h
          cases hsorted : sortSlice dataFiles (FileSystemDataset.changesLess files) with
          | panic msg => simp [hsorted] at h
          | val sorted =>
            simp only [hsorted] at h
            cases hdd : f.datasetDefinition with
            | none => simp [hdd] at h
            | some dd =>
              simp only [hdd, Res.val.injEq, Prod.mk.injEq, Option.some.injEq, and_true] at h
              rw [← h]
              exact sortSlice_perm _ _ _ hsorted
        · simp only [hlen, if_false] at h
          cases hdd : f.datasetDefinition with
          | none => simp [hdd] at h
          | some dd =>
            simp only [hdd, Res.val.injEq, Prod.mk.injEq, Option.some.injEq, and_true] at h
            rw [← h]
            exact List.Perm.refl _

theorem unitFailure_isFailure (x : FileEvent) (h : x.isUnitFailure = true) :
    x.isFailure = true := by
  rcases x with ⟨i, _ | _⟩ | _ | _ | _ | ⟨_ | _⟩ | ⟨_ | _⟩ <;>
    simp_all [FileEvent.isUnitFailure, FileEvent.isFailure]

theorem failure_is_last_event (trace pre post : List FileEvent) (e : FileEvent)
    (hclean : ∀ x ∈ trace.dropLast, x.isFailure = false)
    (hsplit : trace = pre ++ e :: post) (hbad : e.isFailure = true) : post = [] := by
  by_contra hne
  have hmem : e ∈ trace.dropLast := by
    rw [hsplit, List.dropLast_append_of_ne_nil _ (List.cons_ne_nil _ _),
      List.dropLast_cons_of_ne_nil hne]
    simp
  rw [hclean e hmem] at hbad
  exact Bool.noConfusion hbad

theorem nextFinish_failsFast {Item : Type} (f : FileCollectionEntityIterator Item)
    (item : Option Item) (trace : List FileEvent)
    (hclean : ∀ x ∈ trace, x.isFailure = false) :
    (FileCollectionEntityIterator.nextFinish f item trace).failsFast := by
  have hunit : ∀ x ∈ trace, x.isUnitFailure = true → False := by
    intro x hx hu
    have h1 := hclean x hx
    rw [unitFailure_isFailure x hu] at h1
    exact Bool.noConfusion h1
  have hmap : FileEvent.mapped false ∉ trace := by
    intro hx
    have := hclean _ hx
    simp [FileEvent.isFailure] at this
  unfold FileCollectionEntityIterator.nextFinish
  split
  · refine ⟨fun x hx => hclean x (List.mem_of_mem_dropLast hx), ?_, ?_⟩
    · intro x hx hu
      exact (hunit x hx hu).elim
    · intro hx
      exact absurd hx hmap
  · split
    · refine ⟨?_, ?_, ?_⟩
      · intro x hx
        rw [List.dropLast_concat] at hx
        exact hclean x hx
      · intro x hx hu
        rcases List.mem_append.mp hx with h | h
        · exact (hunit x h hu).elim
        · simp at h
          subst h
          simp [FileEvent.isUnitFailure] at hu
      · intro _
        rfl
    · refine ⟨?_, ?_, ?_⟩
      · intro x hx
        rw [List.dropLast_concat] at hx
        exact hclean x hx
      · intro x hx hu
        rcases List.mem_append.mp hx with h | h
        · exact (hunit x h hu).elim
        · simp at h
          subst h
          simp [FileEvent.isUnitFailure] at hu
      · intro hx
        rcases List.mem_append.mp hx with h | h
        · exact absurd h hmap
        · simp at h

theorem errorLeaf_failsFast {Item : Type} (f : FileCollectionEntityIterator Item)
    (trace : List FileEvent) (e : FileEvent) (err : LayerError)
    (hclean : ∀ x ∈ trace, x.isFailure = false)
    (htag : err.tag = LayerErrorType.Internal) (hmap : e ≠ FileEvent.mapped false) :
    NextStep.failsFast
      { result := Res.val (none, some err), recv := f, trace := trace ++ [e] } := by
  refine ⟨?_, ?_, ?_⟩
  · intro x hx
    simp only [List.dropLast_concat] at hx
    exact hclean x hx
  · intro x _ _
    exact ⟨err, rfl, htag⟩
  · intro hx
    rcases List.mem_append.mp hx with h | h
    · have h1 := hclean _ h
      simp [FileEvent.isFailure] at h1
    · simp at h
      exact absurd h.symm hmap

theorem clean_concat (trace : List FileEvent) (e : FileEvent)
    (hclean : ∀ x ∈ trace, x.isFailure = false) (he : e.isFailure = false) :
    ∀ x ∈ trace ++ [e], x.isFailure = false := by
  intro x hx
  rcases List.mem_append.mp hx with h | h
  · exact hclean x h
  · simp at h
    rw [h]
    exact he

theorem nextAdvance_failsFast {Item : Type} (f : FileCollectionEntityIterator Item)
    (r : ItemReadCloser Item) (trace : List FileEvent)
    (hclean : ∀ x ∈ trace, x.isFailure = false) :
    (FileCollectionEntityIterator.nextAdvance f r trace).failsFast := by
  unfold FileCollectionEntityIterator.nextAdvance
  split
  · exact errorLeaf_failsFast f trace _ _ hclean rfl (by simp)
  · have hc1 := clean_concat trace (FileEvent.closed true) hclean rfl
    simp only
    split
    · exact nextFinish_failsFast _ none _ hc1
    · split
      · exact errorLeaf_failsFast _ _ _ _ hc1 rfl (by simp)
      · have hc2 := clean_concat _ (FileEvent.opened (f.filesIndex + 1) true) hc1 rfl
        split
        · exact errorLeaf_failsFast _ _ _ _ hc2 rfl (by simp)
        · exact nextFinish_failsFast _ none _ (clean_concat _ _ hc2 rfl)
        · exact nextFinish_failsFast _ _ _ (clean_concat _ _ hc2 rfl)

theorem nextRead_failsFast {Item : Type} (f : FileCollectionEntityIterator Item)
    (trace : List FileEvent) (hclean : ∀ x ∈ trace, x.isFailure = false) :
    (FileCollectionEntityIterator.nextRead f trace).failsFast := by
  unfold FileCollectionEntityIterator.nextRead
  split
  · refine ⟨fun x hx => hclean x (List.mem_of_mem_dropLast hx), ?_, ?_⟩
    · intro x hx hu
      have h1 := hclean x hx
      rw [unitFailure_isFailure x hu] at h1
      exact Bool.noConfusion h1
    · intro hx
      have h1 := hclean _ hx
      simp [FileEvent.isFailure] at h1
  · split
    · exact errorLeaf_failsFast _ _ _ _ hclean rfl (by simp)
    · exact nextFinish_failsFast _ _ _ (clean_concat _ _ hclean rfl)
    · exact nextAdvance_failsFast _ _ _ (clean_concat _ _ hclean rfl)

theorem next_failsFast {Item : Type} (f : FileCollectionEntityIterator Item) :
    f.Next.failsFast := by
  unfold FileCollectionEntityIterator.Next
  split
  · exact nextRead_failsFast f [] (by simp)
  · split
    · exact nextRead_failsFast f [] (by simp)
    · split
      · exact errorLeaf_failsFast f [] _ _ (by simp) rfl (by simp)
      · exact nextRead_failsFast _ _ (by simp [FileEvent.isFailure])

theorem nextCalls_succ_of_entity {σ Item Ent : Type} (m : MappingEntityIterator σ Item Ent)
    (e : Ent) (h : m.Next.result = Res.val (some e)) (n : Nat) :
    (MappingEntityIterator.nextCalls (n + 1) m).1 =
      Res.val (some e) :: (MappingEntityIterator.nextCalls n m.Next.iter).1 := by
  rw [MappingEntityIterator.nextCalls]
  simp only [h]

theorem drain_succ_of_entity {σ Item Ent : Type} (m : MappingEntityIterator σ Item Ent)
    (e : Ent) (h : m.Next.result = Res.val (some e)) (n : Nat) :
    MappingEntityIterator.drain (n + 1) m = e :: MappingEntityIterator.drain n m.Next.iter := by
  rw [MappingEntityIterator.drain]
  simp only [h]

theorem dataObjectIterator_next_item {Bytes : Type} (json : JsonCodec Bytes)
    (done rest : List Bytes) (b : Bytes) (id : String) (props : GoMap)
    (hdec : json.unmarshal b = some { ID := id, Props := some props }) :
    DataObjectIterator.Next json { objects := done ++ b :: rest, pos := done.length } =
      (Res.val (some { raw := some (props.set "id" (Value.str id)) }),
        { objects := done ++ b :: rest, pos := done.length + 1 }) := by
  have hget : (done ++ b :: rest).get? done.length = some b := by
    induction done with
    | nil => rfl
    | cons a t ih => exact ih
  unfold DataObjectIterator.Next
  simp only [hget, hdec, DataItem.PutRaw, DataItem.SetValue]

theorem dataObjectIterator_next_end {Bytes : Type} (json : JsonCodec Bytes)
    (objects : List Bytes) :
    DataObjectIterator.Next json { objects := objects, pos := objects.length } =
      (Res.val none, { objects := objects, pos := objects.length }) := by
  have hget : objects.get? objects.length = none := by simp
  unfold DataObjectIterator.Next
  simp only [hget]

theorem sampleIterator_run {Bytes : Type} (json : JsonCodec Bytes)
    (mapper : DataItem → Option Entity) (hmapper : ∀ item, (mapper item).isSome = true)
    (todo : List Bytes) :
    ∀ (done : List Bytes),
      (∀ b ∈ todo, ∃ id props, json.unmarshal b = some { ID := id, Props := some props }) →
      (∀ fuel, (MappingEntityIterator.drain fuel
          { mapper := mapper, rowNext := DataObjectIterator.Next json,
            rowIterator := { objects := done ++ todo, pos := done.length } }).length
          = min fuel todo.length) ∧
      (MappingEntityIterator.nextCalls (todo.length + 1)
          { mapper := mapper, rowNext := DataObjectIterator.Next json,
            rowIterator := { objects := done ++ todo, pos := done.length } }).1
        = (MappingEntityIterator.drain todo.length
            { mapper := mapper, rowNext := DataObjectIterator.Next json,
              rowIterator := { objects := done ++ todo, pos := done.length } }).map
              (fun e => Res.val (some e)) ++ [Res.val none] := by
  induction todo with
  | nil =>
    intro done _
    have hend := dataObjectIterator_next_end json done
    constructor
    · intro fuel
      cases fuel with
      | zero => rfl
      | succ k =>
        simp [MappingEntityIterator.drain, MappingEntityIterator.Next, hend]
    · simp [MappingEntityIterator.drain, MappingEntityIterator.nextCalls,
        MappingEntityIterator.Next, hend]
  | cons b rest ih =>
    intro done hdec
    obtain ⟨id, props, hb⟩ := hdec b (List.mem_cons_self _ _)
    have hnext := dataObjectIterator_next_item json done rest b id props hb
    obtain ⟨e, he⟩ := Option.isSome_iff_exists.mp
      (hmapper { raw := some (props.set "id" (Value.str id)) })
    have ihr := ih (done ++ [b]) (fun x hx => hdec x (List.mem_cons_of_mem _ hx))
    have hobj : (done ++ [b]) ++ rest = done ++ b :: rest := by simp
    have hpos : (done ++ [b]).length = done.length + 1 := by simp
    rw [hobj, hpos] at ihr
    obtain ⟨ihDrain, ihCalls⟩ := ihr
    have hR : (MappingEntityIterator.Next
        { mapper := mapper, rowNext := DataObjectIterator.Next json,
          rowIterator := { objects := done ++ b :: rest, pos := done.length } }).result
        = Res.val (some e) := by
      simp only [MappingEntityIterator.Next, hnext, he]
    have hI : (MappingEntityIterator.Next
        { mapper := mapper, rowNext := DataObjectIterator.Next json,
          rowIterator := { objects := done ++ b :: rest, pos := done.length } }).iter
        = { mapper := mapper, rowNext := DataObjectIterator.Next json,
            rowIterator := { objects := done ++ b :: rest, pos := done.length + 1 } } := by
      simp only [MappingEntityIterator.Next, hnext]
    constructor
    · intro fuel
      cases fuel with
      | zero => simp [MappingEntityIterator.drain]
      | succ k =>
        rw [drain_succ_of_entity _ e hR, hI, List.length_cons, ihDrain k, List.length_cons]
        omega
    · rw [List.length_cons, nextCalls_succ_of_entity _ e hR, drain_succ_of_entity _ e hR, hI,
        ihCalls]
      rfl

theorem writeAll_appends {Bytes : Type} (json : JsonCodec Bytes) (items : List DataItem) :
    ∀ (ds : SampleDataset Bytes),
      (∀ item ∈ items, item.GetValue "id" = Value.null ∨ ∃ s, item.GetValue "id" = Value.str s) →
      SampleDataset.writeAll json items ds =
        some { ds with data := ds.data ++ items.map (SampleDataset.recordOf json) } := by
  induction items with
  | nil =>
    intro ds _
    simp [SampleDataset.writeAll]
  | cons item rest ih =>
    intro ds hid
    have hrest := fun d => ih d (fun x hx => hid x (List.mem_cons_of_mem _ hx))
    rcases hid item (List.mem_cons_self _ _) with h | ⟨s, h⟩
    · simp [SampleDataset.writeAll, SampleDataset.Write, SampleDataset.recordOf, h, hrest]
    · simp [SampleDataset.writeAll, SampleDataset.Write, SampleDataset.recordOf, h, hrest]

theorem entityToItemLoop_eq_writes (e : Entity) (rules : List EntityPropertyMapping) :
    ∀ (m : GoMap), DefaultItemMapper.EntityToItemLoop e rules { raw := some m } =
      Res.val { raw := some (DefaultItemMapper.writes e rules m) } := by
  induction rules with
  | nil => intro m; rfl
  | cons r rest ih =>
    intro m
    rw [DefaultItemMapper.writes, ← ih]
    cases hid : r.IsIdentity <;>
      simp [DefaultItemMapper.EntityToItemLoop, DataItem.SetValue, DefaultItemMapper.ruleValue, hid]

theorem writes_frame (e : Entity) (rules : List EntityPropertyMapping) :
    ∀ (m : GoMap) (k : String), k ∉ rules.map (fun r => r.Property) →
      DefaultItemMapper.writes e rules m k = m k := by
  induction rules with
  | nil => intro m k _; rfl
  | cons r rest ih =>
    intro m k hk
    rw [List.map_cons, List.mem_cons, not_or] at hk
    rw [DefaultItemMapper.writes, ih _ k hk.2]
    simp [GoMap.set, hk.1]

theorem writes_keys (e : Entity) (rules : List EntityPropertyMapping) :
    ∀ (m : GoMap) (k : String),
      (DefaultItemMapper.writes e rules m k).isSome = true ↔
        ((m k).isSome = true ∨ k ∈ rules.map (fun r => r.Property)) := by
  induction rules with
  | nil => intro m k; simp [DefaultItemMapper.writes]
  | cons r rest ih =>
    intro m k
    rw [DefaultItemMapper.writes, ih]
    by_cases hk : k = r.Property
    · simp [GoMap.set, hk]
    · simp [GoMap.set, hk]

theorem writes_append (e : Entity) (pre post : List EntityPropertyMapping) :
    ∀ (m : GoMap), DefaultItemMapper.writes e (pre ++ post) m =
      DefaultItemMapper.writes e post (DefaultItemMapper.writes e pre m) := by
  induction pre with
  | nil => intro m; rfl
  | cons r rest ih =>
    intro m
    simp only [List.cons_append, DefaultItemMapper.writes]
    exact ih _

theorem writes_last (e : Entity) (pre post : List EntityPropertyMapping)
    (r : EntityPropertyMapping) (m : GoMap)
    (hlast : r.Property ∉ post.map (fun r => r.Property)) :
    DefaultItemMapper.writes e (pre ++ r :: post) m r.Property =
      some (DefaultItemMapper.ruleValue e r) := by
  rw [writes_append, DefaultItemMapper.writes, writes_frame e post _ _ hlast]
  simp [GoMap.set]

theorem writes_congr (e e2 : Entity) (rules : List EntityPropertyMapping) (hid : e2.ID = e.ID) :
    ∀ (m : GoMap),
      (∀ r ∈ rules, r.IsIdentity = false →
        mapIndex e2.Properties r.EntityProperty = mapIndex e.Properties r.EntityProperty) →
      DefaultItemMapper.writes e2 rules m = DefaultItemMapper.writes e rules m := by
  induction rules with
  | nil => intro m _; rfl
  | cons r rest ih =>
    intro m h
    have hval : DefaultItemMapper.ruleValue e2 r = DefaultItemMapper.ruleValue e r := by
      unfold DefaultItemMapper.ruleValue
      cases hr : r.IsIdentity with
      | true => simp [hid]
      | false => simpa using h r (List.mem_cons_self _ _) hr
    rw [DefaultItemMapper.writes, DefaultItemMapper.writes, hval]
    exact ih _ (fun x hx => h x (List.mem_cons_of_mem _ hx))

theorem mappingNext_result {σ Item Ent : Type} (m : MappingEntityIterator σ Item Ent) :
    m.Next.result = mapRowResult m.mapper (m.rowNext m.rowIterator).1 := by
  unfold MappingEntityIterator.Next
  split <;> rename_i h <;> simp [h, mapRowResult]

theorem dataObjectIterator_next_state {Bytes : Type} (json : JsonCodec Bytes)
    (doi : DataObjectIterator Bytes) :
    (DataObjectIterator.Next json doi).2 =
      { objects := doi.objects,
        pos := if doi.pos < doi.objects.length then doi.pos + 1 else doi.pos } := by
  unfold DataObjectIterator.Next
  cases hget : doi.objects.get? doi.pos with
  | none =>
    have hlen : ¬ doi.pos < doi.objects.length := by
      intro hlt
      rw [List.get?_eq_get hlt] at hget
      exact Option.noConfusion hget
    simp only [hlen, if_false]
  | some b =>
    have hlen : doi.pos < doi.objects.length := by
      by_contra hge
      have : doi.objects.get? doi.pos = none := List.get?_eq_none.mpr (by omega)
      rw [this] at hget
      exact Option.noConfusion hget
    simp only [hlen, if_true]
    split
    · rfl
    · split <;> rfl

theorem dataObjectIterator_after_state {Bytes : Type} (json : JsonCodec Bytes) (k : Nat) :
    ∀ (doi : DataObjectIterator Bytes), doi.pos ≤ doi.objects.length →
      DataObjectIterator.after json k doi =
        { objects := doi.objects, pos := min (doi.pos + k) doi.objects.length } := by
  induction k with
  | zero =>
    intro doi h
    simp [DataObjectIterator.after, Nat.min_eq_left h]
  | succ n ih =>
    intro doi h
    rw [DataObjectIterator.after, dataObjectIterator_next_state]
    by_cases hlt : doi.pos < doi.objects.length
    · simp only [hlt, if_true]
      rw [ih _ (by simpa using hlt)]
      simp only
      congr 1
      omega
    · simp only [hlt, if_false]
      rw [ih _ (by simpa using h)]
      simp only
      congr 1
      omega

theorem dataObjectIterator_next_at {Bytes : Type} (json : JsonCodec Bytes)
    (doi : DataObjectIterator Bytes) (b : Bytes) (id : String) (props : GoMap)
    (hget : doi.objects.get? doi.pos = some b)
    (hdec : json.unmarshal b = some { ID := id, Props := some props }) :
    (DataObjectIterator.Next json doi).1 =
      Res.val (some { raw := some (props.set "id" (Value.str id)) }) := by
  unfold DataObjectIterator.Next
  simp only [hget, hdec, DataItem.PutRaw, DataItem.SetValue]

theorem dataObjectIterator_next_past_end {Bytes : Type} (json : JsonCodec Bytes)
    (doi : DataObjectIterator Bytes) (h : doi.objects.length ≤ doi.pos) :
    (DataObjectIterator.Next json doi).1 = Res.val none := by
  have hget : doi.objects.get? doi.pos = none := List.get?_eq_none.mpr h
  unfold DataObjectIterator.Next
  simp only [hget]

theorem dataObjectIterator_kth_call {Bytes : Type} (json : JsonCodec Bytes)
    (objects : List Bytes) (k : Nat) (hk : k < objects.length)
    (hwf : ∀ b ∈ objects, ∃ id props,
      json.unmarshal b = some { ID := id, Props := some props }) :
    ∃ b id props, objects.get? k = some b ∧
      json.unmarshal b = some { ID := id, Props := some props } ∧
      (DataObjectIterator.Next json
          (DataObjectIterator.after json k (NewDataObjectIterator objects))).1 =
        Res.val (some { raw := some (props.set "id" (Value.str id)) }) := by
  have hget : objects.get? k = some (objects.get ⟨k, hk⟩) := List.get?_eq_get hk
  obtain ⟨id, props, hdec⟩ := hwf _ (List.get_mem objects k hk)
  refine ⟨_, id, props, hget, hdec, ?_⟩
  have hstate := dataObjectIterator_after_state json k (NewDataObjectIterator objects)
    (Nat.zero_le _)
  simp only [NewDataObjectIterator, Nat.zero_add] at hstate
  simp only [NewDataObjectIterator, hstate, Nat.min_eq_left (Nat.le_of_lt hk)]
  exact dataObjectIterator_next_at json _ _ id props hget hdec

theorem demoSampleDataset_decodes :
    ∀ b ∈ demoSampleDataset.data, ∃ id props,
      idealJson.unmarshal b = some { ID := id, Props := some props } := by
  intro b hb
  simp only [demoSampleDataset, DataObject.AsBytes, idealJson, demoObject,
    List.mem_cons, List.mem_singleton, List.not_mem_nil, or_false] at hb
  rcases hb with h | h <;> subst h <;> exact ⟨_, _, rfl⟩

theorem wellFormed_append_record {Bytes : Type} (json : JsonCodec Bytes)
    (hlossless : ∀ d, json.unmarshal (json.marshal d) = some d)
    (data : List Bytes)
    (hds : ∀ b ∈ data, ∃ id props, json.unmarshal b = some { ID := id, Props := some props })
    (i : String) (raw : GoMap) :
    ∀ b ∈ data ++ [json.marshal { ID := i, Props := some raw }],
      ∃ id props, json.unmarshal b = some { ID := id, Props := some props } := by
  intro b hb
  rcases List.mem_append.mp hb with h | h
  · exact hds b h
  · rw [List.mem_singleton] at h
    subst h
    exact ⟨i, raw, hlossless _⟩

theorem readBack_appended_record {Bytes : Type} (json : JsonCodec Bytes)
    (hlossless : ∀ d, json.unmarshal (json.marshal d) = some d)
    (ds : SampleDataset Bytes)
    (hds : ∀ b ∈ ds.data, ∃ id props,
      json.unmarshal b = some { ID := id, Props := some props })
    (i : String) (raw : GoMap) :
    (∀ k, k < ds.data.length → ∃ item,
      SampleDataset.readBack json
        { ds with data := ds.data ++ [json.marshal { ID := i, Props := some raw }] } k
        = Res.val (some item)) ∧
    SampleDataset.readBack json
        { ds with data := ds.data ++ [json.marshal { ID := i, Props := some raw }] }
        ds.data.length
      = Res.val (some { raw := some (raw.set "id" (Value.str i)) }) ∧
    SampleDataset.readBack json
        { ds with data := ds.data ++ [json.marshal { ID := i, Props := some raw }] }
        (ds.data.length + 1)
      = Res.val none := by
  have hwf := wellFormed_append_record json hlossless ds.data hds i raw
  refine ⟨?_, ?_, ?_⟩
  · intro k hk
    obtain ⟨b, id, props, _, _, hnext⟩ :=
      dataObjectIterator_kth_call json _ k (by simp; omega) hwf
    exact ⟨_, hnext⟩
  · obtain ⟨b, id, props, hget, hdec, hnext⟩ :=
      dataObjectIterator_kth_call json _ ds.data.length (by simp) hwf
    have hb : b = json.marshal { ID := i, Props := some raw } := by
      have hlast : (ds.data ++ [json.marshal { ID := i, Props := some raw }]).get? ds.data.length
          = some (json.marshal { ID := i, Props := some raw }) := by
        generalize ds.data = done
        induction done with
        | nil => rfl
        | cons a t ih => exact ih
      rw [hlast] at hget
      injection hget with hget
      exact hget.symm
    rw [hb, hlossless] at hdec
    injection hdec with hdec
    injection hdec with hid hprops
    injection hprops with hprops
    unfold SampleDataset.readBack
    rw [hnext, ← hid, ← hprops]
  · unfold SampleDataset.readBack
    have hstate := dataObjectIterator_after_state json (ds.data.length + 1)
      (NewDataObjectIterator (ds.data ++ [json.marshal { ID := i, Props := some raw }]))
      (Nat.zero_le _)
    apply dataObjectIterator_next_past_end
    rw [hstate]
    simp [NewDataObjectIterator]

theorem registerAll_spec (defs : List DatasetDefinition) :
    ∀ (datasets : String → Option FileSystemDataset) (name : String),
      (∀ reg, FileSystemDataLayer.registerAll defs datasets name = some reg →
        datasets name = some reg ∨ (reg.name = name ∧ reg.datasetDefinition ≠ none)) ∧
      ((FileSystemDataLayer.registerAll defs datasets name).isSome = true ↔
        ((datasets name).isSome = true ∨ name ∈ defs.map (fun d => d.DatasetName))) := by
  induction defs with
  | nil =>
    intro datasets name
    exact ⟨fun reg h => Or.inl h, by simp [FileSystemDataLayer.registerAll]⟩
  | cons d rest ih =>
    intro datasets name
    rw [FileSystemDataLayer.registerAll]
    obtain ⟨ih1, ih2⟩ := ih (fun k =>
      if k = d.DatasetName then
        some { name := d.DatasetName, datasetDefinition := some d, path := "",
               filePattern := "", supportSinceByFileTimestamp := false,
               supportSinceByDataProperty := "", isDeletedProperty := "" }
      else datasets k) name
    constructor
    · intro reg hreg
      rcases ih1 reg hreg with h | h
      · by_cases hk : name = d.DatasetName
        · simp only [hk, if_true, Option.some.injEq] at h
          right
          rw [← h, hk]
          simp
        · simp only [hk, if_false] at h
          exact Or.inl h
      · exact Or.inr h
    · rw [ih2]
      by_cases hk : name = d.DatasetName
      · simp [hk]
      · simp [hk]

/-- Outside the round trip: an item with a nil raw map is written with nil Props,
and reading that record back panics at `SetValue`. -/
theorem readBack_nil_raw_panics :
    (SampleDataset.Write idealJson demoSampleDataset { raw := none }).1 = Res.val none ∧
    SampleDataset.readBack idealJson
        (SampleDataset.Write idealJson demoSampleDataset { raw := none }).2 2
      = Res.panic "assignment to entry in nil map" :=
  ⟨rfl, rfl⟩

theorem newItemReadCloser_fails {Item : Type} (file : DirEntry Item)
    (hopen : ∀ r, file.opened ≠ OpenResult.reader r) :
    ∃ err, NewItemReadCloser file = Except.error err := by
  unfold NewItemReadCloser
  cases ho : file.opened with
  | openFails => exact ⟨_, rfl⟩
  | encoderFails => exact ⟨_, rfl⟩
  | reader r => exact absurd ho (hopen r)

theorem wellFormed_append_written {Bytes : Type} (json : JsonCodec Bytes)
    (hlossless : ∀ d, json.unmarshal (json.marshal d) = some d)
    (data : List Bytes)
    (hds : ∀ b ∈ data, ∃ id props, json.unmarshal b = some { ID := id, Props := some props })
    (items : List DataItem) (hraw : ∀ item ∈ items, item.raw ≠ none) :
    ∀ b ∈ data ++ items.map (SampleDataset.recordOf json),
      ∃ id props, json.unmarshal b = some { ID := id, Props := some props } := by
  intro b hb
  rcases List.mem_append.mp hb with h | h
  · exact hds b h
  · obtain ⟨item, hitem, hrec⟩ := List.mem_map.mp h
    cases hr : item.raw with
    | none => exact absurd hr (hraw item hitem)
    | some raw =>
      rw [← hrec]
      simp only [SampleDataset.recordOf, DataObject.AsBytes, DataItem.GetRaw, hr, hlossless]
      exact ⟨_, _, rfl⟩

/-! ## Theorems -/

/-- C1 (code at the failing input). Over one file holding the items x and y, three
successive calls of Next on the iterator that NewFileCollectionEntityIterator
builds all return the entity of x: the entity of y and the end of the sequence
are never reached, so the calls are not the sequence x, y, end that the claim
describes. -/
theorem fileIterator_next_repeats_first_item :
    FileCollectionEntityIterator.nextCalls 3
        (NewFileCollectionEntityIterator "dir" [demoFile "a.json" 1 ["x", "y"]] demoMapper "" none)
      = [Res.val (some (demoEntity "x"), none), Res.val (some (demoEntity "x"), none),
         Res.val (some (demoEntity "x"), none)] ∧
    FileCollectionEntityIterator.nextCalls 3
        (NewFileCollectionEntityIterator "dir" [demoFile "a.json" 1 ["x", "y"]] demoMapper "" none)
      ≠ [Res.val (some (demoEntity "x"), none), Res.val (some (demoEntity "y"), none),
         Res.val (none, none)] := by
  have h : FileCollectionEntityIterator.nextCalls 3
        (NewFileCollectionEntityIterator "dir" [demoFile "a.json" 1 ["x", "y"]] demoMapper "" none)
      = [Res.val (some (demoEntity "x"), none), Res.val (some (demoEntity "x"), none),
         Res.val (some (demoEntity "x"), none)] := by
    apply nextCalls_unopened _ rfl
    rfl
  refine ⟨h, ?_⟩
  rw [h]
  intro hEq
  have h2 := (List.cons.inj (List.cons.inj hEq).2).1
  have h3 : (demoEntity "x").ID = (demoEntity "y").ID := by
    injection h2 with h2
    injection h2 with h2 _
    injection h2 with h2
    rw [h2]
  exact absurd h3 (by decide)

/-- C2. One call of MappingEntityIterator.Next makes exactly one call of the
underlying iterator (the first call of the log, and no other) and leaves the
underlying iterator in the state that one call leaves it; when the underlying
iterator returns nil, Next returns nil and the mapper is not called; when it
returns an item, Next calls the mapper once, on that item, and returns its
result. Consequently the results of n successive calls of Next are the
results of n successive calls of the underlying iterator with the mapper
applied to every item, and the entities a consumer collects until the first
nil are the mapper applied, in order, to the items the underlying iterator
yields before its first nil (up to the first nil the mapper itself returns). -/
theorem mappingIterator_next_maps_each_item {σ Item Ent : Type}
    (m : MappingEntityIterator σ Item Ent) :
    (∃ rest, m.Next.calls = MappingCall.rowNext :: rest ∧
        ∀ c ∈ rest, ∃ item, c = MappingCall.itemToEntity item) ∧
    (m.Next.iter.rowIterator = (m.rowNext m.rowIterator).2 ∧
        m.Next.iter.mapper = m.mapper ∧ m.Next.iter.rowNext = m.rowNext) ∧
    ((m.rowNext m.rowIterator).1 = Res.val none →
        m.Next.result = Res.val none ∧ m.Next.calls = [MappingCall.rowNext]) ∧
    (∀ item, (m.rowNext m.rowIterator).1 = Res.val (some item) →
        m.Next.result = Res.val (m.mapper item) ∧
        m.Next.calls = [MappingCall.rowNext, MappingCall.itemToEntity item]) ∧
    (∀ n, (MappingEntityIterator.nextCalls n m).1 =
          (rowCalls m.rowNext n m.rowIterator).1.map (mapRowResult m.mapper) ∧
        (MappingEntityIterator.nextCalls n m).2.rowIterator =
          (rowCalls m.rowNext n m.rowIterator).2) ∧
    (∀ fuel, (MappingEntityIterator.drain fuel m).map some =
        ((rowItems m.rowNext fuel m.rowIterator).map m.mapper).takeWhile Option.isSome) := by
  have hone : ∀ (m : MappingEntityIterator σ Item Ent),
      m.Next.iter.rowIterator = (m.rowNext m.rowIterator).2 ∧
        m.Next.iter.mapper = m.mapper ∧ m.Next.iter.rowNext = m.rowNext := by
    intro m
    unfold MappingEntityIterator.Next
    split <;> rename_i h <;> simp [h]
  have hres : ∀ (m : MappingEntityIterator σ Item Ent),
      m.Next.result = mapRowResult m.mapper (m.rowNext m.rowIterator).1 := by
    intro m
    unfold MappingEntityIterator.Next
    split <;> rename_i h <;> simp [h, mapRowResult]
  refine ⟨?_, hone m, ?_, ?_, ?_, ?_⟩
  · unfold MappingEntityIterator.Next
    split
    · exact ⟨[], rfl, by simp⟩
    · exact ⟨[], rfl, by simp⟩
    · rename_i rawItem s h
      exact ⟨[MappingCall.itemToEntity rawItem], rfl, by simp⟩
  · intro h
    unfold MappingEntityIterator.Next
    split <;> rename_i h2 <;> simp_all
  · intro item h
    unfold MappingEntityIterator.Next
    split <;> rename_i h2 <;> simp_all
  · intro n
    induction n generalizing m with
    | zero => exact ⟨rfl, rfl⟩
    | succ k ih =>
      obtain ⟨h1, h2, h3⟩ := hone m
      have hr := hres m
      have ihk := ih m.Next.iter
      rw [h1, h2, h3] at ihk
      unfold MappingEntityIterator.nextCalls rowCalls
      rcases hrow : m.rowNext m.rowIterator with ⟨r, s⟩
      rw [hrow] at hr h1 ihk
      cases r with
      | panic msg =>
        simp only [mapRowResult] at hr
        simp [hr, h1, mapRowResult]
      | val v =>
        cases v with
        | none =>
          simp only [mapRowResult] at hr
          simp [hr, mapRowResult, ihk.1, ihk.2]
        | some i =>
          simp only [mapRowResult] at hr
          simp [hr, mapRowResult, ihk.1, ihk.2]
  · intro fuel
    induction fuel generalizing m with
    | zero => rfl
    | succ k ih =>
      obtain ⟨h1, h2, h3⟩ := hone m
      have hr := hres m
      have ihk := ih m.Next.iter
      rw [h1, h2, h3] at ihk
      unfold MappingEntityIterator.drain rowItems
      rcases hrow : m.rowNext m.rowIterator with ⟨r, s⟩
      rw [hrow] at hr ihk
      cases r with
      | panic msg =>
        simp only [mapRowResult] at hr
        simp [hr]
      | val v =>
        cases v with
        | none =>
          simp only [mapRowResult] at hr
          simp [hr]
        | some i =>
          simp only [mapRowResult] at hr
          cases hmi : m.mapper i with
          | none => simp [hr, hmi, List.takeWhile]
          | some e => simp [hr, hmi, List.takeWhile, ihk]

/-- C2 (witness). Over the items 4, 5 with the mapper that doubles an item, the
underlying iterator returns 4 first, so the first Next returns 8 after one pull
and one mapper call. -/
theorem mappingIterator_next_maps_each_item_witness :
    (listRowNext [4, 5]).1 = Res.val (some 4) ∧
    (MappingEntityIterator.Next
        { mapper := fun i => some (2 * i), rowNext := listRowNext, rowIterator := [4, 5] }).result
      = Res.val (some 8) ∧
    (MappingEntityIterator.Next
        { mapper := fun i => some (2 * i), rowNext := listRowNext, rowIterator := [4, 5] }).calls
      = [MappingCall.rowNext, MappingCall.itemToEntity 4] :=
  ⟨rfl, (mappingIterator_next_maps_each_item
      { mapper := fun i => some (2 * i), rowNext := listRowNext, rowIterator := [4, 5] }).2.2.2.1 4 rfl⟩

/-- C3. For every entity and every rule list in which no two rules have the same
Property, EntityToItem returns (without panic) an item whose field named by
the Property of each identity rule holds the ID of the entity, and whose field
named by the Property of each other rule r holds
entity.Properties[r.EntityProperty]. -/
theorem entityToItem_holds_rule_values (d : DefaultItemMapper) (e : Entity)
    (hdistinct : (d.mappings.map (fun r => r.Property)).Nodup) :
    ∃ item, d.EntityToItem e = Res.val item ∧
      ∀ r ∈ d.mappings,
        (r.IsIdentity = true → item.GetValue r.Property = Value.str e.ID) ∧
        (r.IsIdentity = false →
          item.GetValue r.Property = mapIndex e.Properties r.EntityProperty) := by
  obtain ⟨m2, hrun, hval, _⟩ := entityToItemLoop_spec e d.mappings GoMap.empty hdistinct
  refine ⟨{ raw := some m2 }, hrun, ?_⟩
  intro r hr
  have h := hval r hr
  constructor
  · intro hid
    simp [DataItem.GetValue, mapIndex, h, hid]
  · intro hid
    simp [DataItem.GetValue, mapIndex, h, hid]

/-- C3 (witness). With the rules id (identity) and title (from the property name),
the entity with ID e1 and name Ada maps to an item with id = e1 and title = Ada. -/
theorem entityToItem_holds_rule_values_witness :
    ∃ item,
      DefaultItemMapper.EntityToItem
          (NewDefaultItemMapper
            [{ Property := "id", EntityProperty := "", IsIdentity := true },
             { Property := "title", EntityProperty := "name", IsIdentity := false }])
          { ID := "e1", Properties := some (GoMap.empty.set "name" (Value.str "Ada")) }
        = Res.val item ∧
      item.GetValue "id" = Value.str "e1" ∧ item.GetValue "title" = Value.str "Ada" := by
  obtain ⟨item, hrun, hval⟩ := entityToItem_holds_rule_values
    (NewDefaultItemMapper
      [{ Property := "id", EntityProperty := "", IsIdentity := true },
       { Property := "title", EntityProperty := "name", IsIdentity := false }])
    { ID := "e1", Properties := some (GoMap.empty.set "name" (Value.str "Ada")) }
    (by decide)
  refine ⟨item, hrun, ?_, ?_⟩
  · exact (hval { Property := "id", EntityProperty := "", IsIdentity := true }
      (by simp [NewDefaultItemMapper])).1 rfl
  · have h := (hval { Property := "title", EntityProperty := "name", IsIdentity := false }
      (by simp [NewDefaultItemMapper])).2 rfl
    rw [h]
    simp [mapIndex, GoMap.set, GoMap.empty]

/-- C4. Whenever Changes returns an iterator, the files it handed to the iterator
are, up to order, exactly the entries of the directory listing whose name
matches filePattern and, when supportSinceByFileTimestamp is set and since is a
non-empty timestamp that parses to t, whose modification time is strictly
after t (an entry modified at t is left out); when the flag is unset or since
is empty they are exactly the entries whose name matches. And Changes does
return an iterator when the directory can be listed, the pattern is
well-formed, the info of every entry can be read and the dataset has a
definition. -/
theorem changes_hands_over_selected_files {Item : Type} (w : World Item)
    (f : FileSystemDataset) (since : String) (limit : Int) (latestOnly : Bool) :
    (∀ it, FileSystemDataset.Changes w f since limit latestOnly = Res.val (some it, none) →
      ∃ files, w.readDir = some files ∧
        (f.supportSinceByFileTimestamp = true → since ≠ "" →
          ∀ t, w.timeParse since = some t →
            it.files.Perm (files.filter (fun e =>
              (w.fileMatch f.filePattern e.name == some true) &&
                e.info.any (fun mt => decide (t < mt))))) ∧
        (f.supportSinceByFileTimestamp = false ∨ since = "" →
          it.files.Perm (files.filter (fun e =>
            w.fileMatch f.filePattern e.name == some true)))) ∧
    (∀ files dd, w.pathExists = true → w.readDir = some files →
      f.datasetDefinition = some dd →
      (∀ e ∈ files, w.fileMatch f.filePattern e.name ≠ none) →
      (∀ e ∈ files, e.info ≠ none) →
      ∃ it, FileSystemDataset.Changes w f since limit latestOnly = Res.val (some it, none)) := by
  constructor
  · intro it h
    obtain ⟨files, dataFiles, hrd, hsel, hperm⟩ := changes_files_perm w f since limit latestOnly it h
    have hEq := selectFiles_eq w f since files [] dataFiles hsel
    rw [List.nil_append] at hEq
    refine ⟨files, hrd, ?_, ?_⟩
    · intro hflag hsince t ht
      have hmode : (f.supportSinceByFileTimestamp && since != "") = true := by
        simp [hflag, hsince]
      rw [hEq] at hperm
      simpa [hmode, ht] using hperm
    · intro hoff
      have hmode : (f.supportSinceByFileTimestamp && since != "") = false := by
        rcases hoff with h1 | h1 <;> simp [h1]
      rw [hEq] at hperm
      simpa [hmode] using hperm
  · intro files dd hex hrd hdd hmatch hinfo
    obtain ⟨dataFiles, hsel⟩ := selectFiles_total w f since files hmatch hinfo []
    have hEq := selectFiles_eq w f since files [] dataFiles hsel
    rw [List.nil_append] at hEq
    have hlen : dataFiles.length ≤ files.length := by
      rw [hEq]
      exact List.length_filter_le _ _
    have hsort : ∃ sorted,
        (if dataFiles.length > 0 then
          sortSlice dataFiles (FileSystemDataset.changesLess files)
         else Res.val dataFiles) = Res.val sorted := by
      by_cases hpos : dataFiles.length > 0
      · simp only [hpos, if_true]
        exact insertionOuter_total _ files.length
          (fun a b ha hb => changesLess_total files hinfo a b ha hb) _ 1 dataFiles (by omega)
      · simp only [hpos, if_false]
        exact ⟨dataFiles, rfl⟩
    obtain ⟨sorted, hsorted⟩ := hsort
    refine ⟨NewFileCollectionEntityIterator f.path sorted (w.newMapper dd) "" none, ?_⟩
    unfold FileSystemDataset.Changes
    simp only [hex, hrd, hsel, hdd, hsorted]
    rfl

/-- C4 (witness). Over files modified 1 s, 2 s and 3 s after the zero time, with
since-filtering on and since = 2 s, Changes returns an iterator over the third
file alone: the file modified exactly at since is left out. -/
theorem changes_hands_over_selected_files_witness :
    FileSystemDataset.Changes (demoWorld demoListingAscending) (demoDataset "*" true)
        "0001-01-01T00:00:02Z" 0 false
      = Res.val (some (NewFileCollectionEntityIterator "dir"
          [demoFile "c.json" 3000000000 ["c1"]] demoMapper "" none), none) ∧
    [demoFile "c.json" 3000000000 ["c1"]].Perm (demoListingAscending.filter (fun e =>
      (demoMatch "*" e.name == some true) &&
        e.info.any (fun mt => decide ((2000000000 : Time) < mt)))) := by
  have hrun : FileSystemDataset.Changes (demoWorld demoListingAscending) (demoDataset "*" true)
        "0001-01-01T00:00:02Z" 0 false
      = Res.val (some (NewFileCollectionEntityIterator "dir"
          [demoFile "c.json" 3000000000 ["c1"]] demoMapper "" none), none) := by
    rfl
  refine ⟨hrun, ?_⟩
  obtain ⟨files, hrd, hsinceCase, _⟩ :=
    (changes_hands_over_selected_files (demoWorld demoListingAscending) (demoDataset "*" true)
      "0001-01-01T00:00:02Z" 0 false).1 _ hrun
  have hfiles : files = demoListingAscending := by
    have : some demoListingAscending = some files := hrd
    injection this with this
    exact this.symm
  subst hfiles
  exact hsinceCase rfl (by decide) 2000000000 rfl

/-- C5 (code at the failing input). Over three matching files listed as a, b, c and
modified 2 s, 3 s and 1 s after the zero time, Changes hands the iterator the
files in the order a, c, b, whose modification times 2 s, 1 s, 3 s are not
ascending: the comparison of the sort reads the directory listing at the
positions it is given instead of the slice being sorted. -/
theorem changes_files_not_sorted_by_modtime :
    ∃ it, FileSystemDataset.Changes (demoWorld demoListingUnordered) (demoDataset "*" false)
        "" 0 false = Res.val (some it, none) ∧
      it.files.map (fun e => e.name) = ["a.json", "c.json", "b.json"] ∧
      it.files.map (fun e => e.info) = [some 2000000000, some 1000000000, some 3000000000] ∧
      ¬ (it.files.map (fun e => e.info.getD 0)).Pairwise (fun s t => s ≤ t) := by
  refine ⟨NewFileCollectionEntityIterator "dir"
    [demoFile "a.json" 2000000000 ["a1"], demoFile "c.json" 1000000000 ["c1"],
     demoFile "b.json" 3000000000 ["b1"]] demoMapper "" none, rfl, rfl, rfl, ?_⟩
  simp [NewFileCollectionEntityIterator, demoFile]

/-- C6. In every state of a FileCollectionEntityIterator, a failed open or a failed
read is the last thing a call of Next does (no unit is opened or read after
it) and the call returns no entity and an error tagged Internal. Case by
case. At entry: when no reader is open and opening the unit at the unit
pointer fails, that failed open is all the call does; when the read from the
open reader fails, that read is all the call does; when the unit at the
pointer opens and its first read fails, the call stops there. While
advancing: when the current unit is exhausted (its reader open, or just
opened at the pointer) and closes, and opening the next unit fails, or the
next unit opens and its first read fails, the call returns the Internal error
right after that failed open or read of the next unit, and no unit behind it
is opened. -/
theorem next_fails_fast_on_unit_error {Item : Type} (f : FileCollectionEntityIterator Item) :
    (∀ pre e post, f.Next.trace = pre ++ e :: post → e.isUnitFailure = true →
      post = [] ∧
      ∃ err, f.Next.result = Res.val (none, some err) ∧ err.tag = LayerErrorType.Internal) ∧
    (∀ file, f.currentItemReader = none → f.files.get? f.filesIndex = some file →
      (∀ r, file.opened ≠ OpenResult.reader r) →
      f.Next.result = Res.val (none, some errCreateReader) ∧
      errCreateReader.tag = LayerErrorType.Internal ∧
      f.Next.trace = [FileEvent.opened f.filesIndex false]) ∧
    (∀ r msg rest, f.currentItemReader = some r → r.pending = ReadResult.fail msg :: rest →
      f.Next.result = Res.val (none, some errReadItem) ∧
      errReadItem.tag = LayerErrorType.Internal ∧
      f.Next.trace = [FileEvent.readFail]) ∧
    (∀ file r msg rest, f.currentItemReader = none → f.files.get? f.filesIndex = some file →
      file.opened = OpenResult.reader r → r.pending = ReadResult.fail msg :: rest →
      f.Next.result = Res.val (none, some errReadItem) ∧
      f.Next.trace = [FileEvent.opened f.filesIndex true, FileEvent.readFail]) ∧
    (∀ r file, f.currentItemReader = some r → r.pending = [] → r.closeErr = none →
      f.files.get? (f.filesIndex + 1) = some file →
      (∀ r2, file.opened ≠ OpenResult.reader r2) →
      f.Next.result = Res.val (none, some errCreateReader) ∧
      f.Next.trace = [FileEvent.readEnd, FileEvent.closed true,
        FileEvent.opened (f.filesIndex + 1) false]) ∧
    (∀ r file r2 msg rest, f.currentItemReader = some r → r.pending = [] →
      r.closeErr = none → f.files.get? (f.filesIndex + 1) = some file →
      file.opened = OpenResult.reader r2 → r2.pending = ReadResult.fail msg :: rest →
      f.Next.result = Res.val (none, some errReadItem) ∧
      f.Next.trace = [FileEvent.readEnd, FileEvent.closed true,
        FileEvent.opened (f.filesIndex + 1) true, FileEvent.readFail]) ∧
    (∀ file0 r0 file, f.currentItemReader = none → f.files.get? f.filesIndex = some file0 →
      file0.opened = OpenResult.reader r0 → r0.pending = [] → r0.closeErr = none →
      f.files.get? (f.filesIndex + 1) = some file →
      (∀ r2, file.opened ≠ OpenResult.reader r2) →
      f.Next.result = Res.val (none, some errCreateReader) ∧
      f.Next.trace = [FileEvent.opened f.filesIndex true, FileEvent.readEnd,
        FileEvent.closed true, FileEvent.opened (f.filesIndex + 1) false]) ∧
    (∀ file0 r0 file r2 msg rest, f.currentItemReader = none →
      f.files.get? f.filesIndex = some file0 →
      file0.opened = OpenResult.reader r0 → r0.pending = [] → r0.closeErr = none →
      f.files.get? (f.filesIndex + 1) = some file →
      file.opened = OpenResult.reader r2 → r2.pending = ReadResult.fail msg :: rest →
      f.Next.result = Res.val (none, some errReadItem) ∧
      f.Next.trace = [FileEvent.opened f.filesIndex true, FileEvent.readEnd,
        FileEvent.closed true, FileEvent.opened (f.filesIndex + 1) true,
        FileEvent.readFail]) := by
  refine ⟨?_, ?_, ?_, ?_, ?_, ?_, ?_, ?_⟩
  · intro pre e post hsplit hbad
    obtain ⟨hclean, hunit, _⟩ := next_failsFast f
    refine ⟨failure_is_last_event _ pre post e hclean hsplit (unitFailure_isFailure e hbad), ?_⟩
    exact hunit e (by rw [hsplit]; simp) hbad
  · intro file hcur hfile hopen
    obtain ⟨err, herr⟩ := newItemReadCloser_fails file hopen
    unfold FileCollectionEntityIterator.Next
    simp only [hcur, hfile, herr]
    refine ⟨?_, ?_, ?_⟩ <;> first | rfl | trivial
  · intro r msg rest hcur hpending
    unfold FileCollectionEntityIterator.Next
    simp only [hcur]
    unfold FileCollectionEntityIterator.nextRead
    simp only [hcur, ItemReadCloser.Read, hpending]
    refine ⟨?_, ?_, ?_⟩ <;> first | rfl | trivial
  · intro file r msg rest hcur hfile hopen hpending
    unfold FileCollectionEntityIterator.Next
    simp only [hcur, hfile, NewItemReadCloser, hopen]
    unfold FileCollectionEntityIterator.nextRead
    simp only [ItemReadCloser.Read, hpending]
    refine ⟨?_, ?_⟩ <;> first | rfl | trivial
  · intro r file hcur hpending hclose hfile hopen
    obtain ⟨err, herr⟩ := newItemReadCloser_fails file hopen
    unfold FileCollectionEntityIterator.Next
    simp only [hcur]
    unfold FileCollectionEntityIterator.nextRead
    simp only [hcur, ItemReadCloser.Read, hpending]
    unfold FileCollectionEntityIterator.nextAdvance
    simp only [ItemReadCloser.Close, hclose, hfile, herr]
    refine ⟨?_, ?_⟩ <;> first | rfl | trivial
  · intro r file r2 msg rest hcur hpending hclose hfile hopen hpending2
    unfold FileCollectionEntityIterator.Next
    simp only [hcur]
    unfold FileCollectionEntityIterator.nextRead
    simp only [hcur, ItemReadCloser.Read, hpending]
    unfold FileCollectionEntityIterator.nextAdvance
    simp only [ItemReadCloser.Close, hclose, hfile, NewItemReadCloser, hopen,
      ItemReadCloser.Read, hpending2]
    refine ⟨?_, ?_⟩ <;> first | rfl | trivial
  · intro file0 r0 file hcur hfile0 hopen0 hpending hclose hfile hopen
    obtain ⟨err, herr⟩ := newItemReadCloser_fails file hopen
    have hnew0 : NewItemReadCloser file0 = Except.ok r0 := by
      simp only [NewItemReadCloser, hopen0]
    unfold FileCollectionEntityIterator.Next
    simp only [hcur, hfile0, hnew0]
    unfold FileCollectionEntityIterator.nextRead
    simp only [ItemReadCloser.Read, hpending]
    unfold FileCollectionEntityIterator.nextAdvance
    simp only [ItemReadCloser.Close, hclose, hfile, herr]
    refine ⟨?_, ?_⟩ <;> first | rfl | trivial
  · intro file0 r0 file r2 msg rest hcur hfile0 hopen0 hpending hclose hfile hopen hpending2
    have hnew0 : NewItemReadCloser file0 = Except.ok r0 := by
      simp only [NewItemReadCloser, hopen0]
    have hnew : NewItemReadCloser file = Except.ok r2 := by
      simp only [NewItemReadCloser, hopen]
    unfold FileCollectionEntityIterator.Next
    simp only [hcur, hfile0, hnew0]
    unfold FileCollectionEntityIterator.nextRead
    simp only [ItemReadCloser.Read, hpending]
    unfold FileCollectionEntityIterator.nextAdvance
    simp only [ItemReadCloser.Close, hclose, hfile, hnew, ItemReadCloser.Read, hpending2]
    refine ⟨?_, ?_⟩ <;> first | rfl | trivial

/-- C6 (witness). With three files of which the second cannot be opened: with the
unit pointer at the second file and no reader open, Next returns the Internal
error of a failed open and has opened nothing else; and with the reader of
the first file open and exhausted, Next closes it, fails to open the second
file and returns the same error. In both cases the third file is not
touched. -/
theorem next_fails_fast_on_unit_error_witness :
    (demoIteratorAtBrokenUnit.Next.result = Res.val (none, some errCreateReader) ∧
      errCreateReader.tag = LayerErrorType.Internal ∧
      demoIteratorAtBrokenUnit.Next.trace = [FileEvent.opened 1 false]) ∧
    (demoIteratorBeforeBrokenUnit.Next.result = Res.val (none, some errCreateReader) ∧
      demoIteratorBeforeBrokenUnit.Next.trace =
        [FileEvent.readEnd, FileEvent.closed true, FileEvent.opened 1 false]) :=
  ⟨(next_fails_fast_on_unit_error demoIteratorAtBrokenUnit).2.1
      (demoBrokenFile "b.json" 2) rfl rfl (fun _ h => OpenResult.noConfusion h),
    (next_fails_fast_on_unit_error demoIteratorBeforeBrokenUnit).2.2.2.2.1
      { pending := [], closeErr := none } (demoBrokenFile "b.json" 2) rfl rfl rfl rfl
      (fun _ h => OpenResult.noConfusion h)⟩

/-- C7 (counterexample). After one successful Next on a mapping iterator over the
items 4, 5, and on a file iterator over one file, Token does not return a
continuation token: it panics. -/
theorem token_panics_after_next :
    demoMappingIterator.Next.result = Res.val (some 8) ∧
    (∀ token, demoMappingIterator.Next.iter.Token ≠ Res.val token) ∧
    (∀ token, demoIteratorBadItem.Token ≠ Res.val token) := by
  refine ⟨rfl, ?_, ?_⟩
  · intro token h
    exact Res.noConfusion h
  · intro token h
    exact Res.noConfusion h

/-- C7 (amended). In every state of a MappingEntityIterator, in particular after
any number k of Next calls, and in every state of a FileCollectionEntityIterator,
Token panics with the message implement me: no continuation token is produced. -/
theorem token_always_panics {σ Item Ent : Type} (m : MappingEntityIterator σ Item Ent)
    (f : FileCollectionEntityIterator Item) (k : Nat) :
    m.Token = Res.panic "implement me" ∧
    (MappingEntityIterator.nextCalls k m).2.Token = Res.panic "implement me" ∧
    f.Token = Res.panic "implement me" ∧
    f.Next.recv.Token = Res.panic "implement me" :=
  ⟨rfl, rfl, rfl, rfl⟩

/-- C10 (counterexample). Over one file holding an item that fails to map followed
by an item that maps, Next returns no entity and the Internal mapping error
instead of skipping to the second item, and two successive calls yield that
error twice and no entity (not the one entity the claim counts). -/
theorem next_does_not_skip_failing_item :
    demoIteratorBadItem.Next.result = Res.val (none, some errMapItem) ∧
    demoIteratorBadItem.Next.result ≠ Res.val (some (demoEntity "good"), none) ∧
    demoIteratorBadItem.Next.trace =
      [FileEvent.opened 0 true, FileEvent.readItem, FileEvent.mapped false] ∧
    FileCollectionEntityIterator.nextCalls 2 demoIteratorBadItem =
      [Res.val (none, some errMapItem), Res.val (none, some errMapItem)] := by
  have h : demoIteratorBadItem.Next.result = Res.val (none, some errMapItem) := rfl
  refine ⟨h, ?_, rfl, nextCalls_unopened _ rfl _ h 2⟩
  rw [h]
  intro hEq
  injection hEq with hEq
  injection hEq with h1 _
  exact Option.noConfusion h1

/-- C10 (amended). In every state of a FileCollectionEntityIterator, when the
mapper fails on the item that Next has read, the call ends there: it reads no
further item and returns no entity together with the error tagged Internal
(could not map item to entity). In particular, when the open reader yields an
item on which the mapper fails, Next does one read and one mapper call and
returns that error. -/
theorem next_reports_mapping_failure {Item : Type} (f : FileCollectionEntityIterator Item) :
    (∀ pre post, f.Next.trace = pre ++ FileEvent.mapped false :: post →
      post = [] ∧ f.Next.result = Res.val (none, some errMapItem) ∧
      errMapItem.tag = LayerErrorType.Internal) ∧
    (∀ r i rest msg, f.currentItemReader = some r → r.pending = ReadResult.item i :: rest →
      f.mapper i { ID := "", Properties := some GoMap.empty } = Except.error msg →
      f.Next.result = Res.val (none, some errMapItem) ∧
      f.Next.trace = [FileEvent.readItem, FileEvent.mapped false]) ∧
    (∀ file r i rest msg, f.currentItemReader = none → f.files.get? f.filesIndex = some file →
      file.opened = OpenResult.reader r → r.pending = ReadResult.item i :: rest →
      f.mapper i { ID := "", Properties := some GoMap.empty } = Except.error msg →
      f.Next.result = Res.val (none, some errMapItem) ∧
      f.Next.trace = [FileEvent.opened f.filesIndex true, FileEvent.readItem,
        FileEvent.mapped false]) := by
  refine ⟨?_, ?_, ?_⟩
  · intro pre post hsplit
    obtain ⟨hclean, _, hmap⟩ := next_failsFast f
    exact ⟨failure_is_last_event _ pre post _ hclean hsplit rfl,
      hmap (by rw [hsplit]; simp), rfl⟩
  · intro r i rest msg hcur hpending hfail
    unfold FileCollectionEntityIterator.Next
    simp only [hcur]
    unfold FileCollectionEntityIterator.nextRead
    simp only [hcur, ItemReadCloser.Read, hpending]
    unfold FileCollectionEntityIterator.nextFinish
    simp only [hfail]
    refine ⟨?_, ?_⟩ <;> first | rfl | trivial
  · intro file r i rest msg hcur hfile hopen hpending hfail
    unfold FileCollectionEntityIterator.Next
    simp only [hcur, hfile, NewItemReadCloser, hopen]
    unfold FileCollectionEntityIterator.nextRead
    simp only [ItemReadCloser.Read, hpending]
    unfold FileCollectionEntityIterator.nextFinish
    simp only [hfail]
    refine ⟨?_, ?_⟩ <;> first | rfl | trivial

/-- C10 (witness). On the iterator over one file holding bad, good, the unit at
the pointer opens, its first item fails to map, and Next returns the mapping
error after one open, one read and one mapper call. -/
theorem next_reports_mapping_failure_witness :
    demoIteratorBadItem.Next.result = Res.val (none, some errMapItem) ∧
    demoIteratorBadItem.Next.trace =
      [FileEvent.opened 0 true, FileEvent.readItem, FileEvent.mapped false] :=
  (next_reports_mapping_failure demoIteratorBadItem).2.2
    (demoFile "a.json" 1 ["bad", "good"])
    { pending := [ReadResult.item "bad", ReadResult.item "good"], closeErr := none }
    "bad" [ReadResult.item "good"] "bad item" rfl rfl rfl rfl rfl

/-- C8 (counterexample). On a sample dataset holding two records, the iterator that
Changes returns for take = 1 yields two entities and then the end of the
sequence: more than take. -/
theorem sampleChanges_exceeds_take :
    ∃ it, SampleDataset.Changes idealJson demoGenericMapper demoSampleDataset "" 1 false
        = (some it, none) ∧
      (MappingEntityIterator.drain 5 it).length = 2 ∧
      ¬ ((MappingEntityIterator.drain 5 it).length ≤ 1) ∧
      (MappingEntityIterator.nextCalls 3 it).1.map
          (fun r => match r with
            | Res.val (some e) => some e.ID
            | _ => none)
        = [some "ID0", some "ID1", none] := by
  refine ⟨_, rfl, rfl, ?_, rfl⟩
  have h : (MappingEntityIterator.drain 5
      { mapper := demoGenericMapper demoSampleDataset.mappings,
        rowNext := DataObjectIterator.Next idealJson,
        rowIterator := NewDataObjectIterator demoSampleDataset.data }).length = 2 := rfl
  rw [h]
  decide

/-- C8 (amended). For every sample dataset whose n records each decode to a data
object with a non-nil Props map, a mapper that returns an entity for every
item, and every since, take and latestOnly, Changes returns an iterator that
yields exactly n entities, one per record, and then signals the end of the
sequence: the first n calls of Next return entities and call n+1 returns nil,
whatever take is. -/
theorem sampleChanges_yields_every_record {Bytes : Type} (json : JsonCodec Bytes)
    (genericMapper : List EntityPropertyMapping → DataItem → Option Entity)
    (ds : SampleDataset Bytes) (since : String) (take : Int) (latestOnly : Bool)
    (hdecode : ∀ b ∈ ds.data, ∃ id props,
      json.unmarshal b = some { ID := id, Props := some props })
    (hmapper : ∀ item, (genericMapper ds.mappings item).isSome = true) :
    ∃ it, SampleDataset.Changes json genericMapper ds since take latestOnly = (some it, none) ∧
      (∀ fuel, (MappingEntityIterator.drain fuel it).length = min fuel ds.data.length) ∧
      (MappingEntityIterator.drain ds.data.length it).length = ds.data.length ∧
      (MappingEntityIterator.nextCalls (ds.data.length + 1) it).1 =
        (MappingEntityIterator.drain ds.data.length it).map (fun e => Res.val (some e))
          ++ [Res.val none] := by
  have h := sampleIterator_run json (genericMapper ds.mappings) hmapper ds.data [] hdecode
  simp only [List.nil_append, List.length_nil] at h
  refine ⟨_, rfl, h.1, ?_, h.2⟩
  exact (h.1 ds.data.length).trans (Nat.min_self _)

/-- C8 (witness). The two records of the example dataset decode, the example mapper
returns an entity for every item, and with take = 1 the iterator yields two
entities. -/
theorem sampleChanges_yields_every_record_witness :
    ∃ it, SampleDataset.Changes idealJson demoGenericMapper demoSampleDataset "" 1 false
        = (some it, none) ∧
      (MappingEntityIterator.drain demoSampleDataset.data.length it).length = 2 := by
  obtain ⟨it, hit, _, hlen, _⟩ :=
    sampleChanges_yields_every_record idealJson demoGenericMapper demoSampleDataset "" 1 false
      (by
        intro b hb
        exact ⟨b.ID, GoMap.empty.set "name" (Value.str (if b.ID = "ID0" then "name0" else "name1")),
          by
            simp only [demoSampleDataset, DataObject.AsBytes, idealJson, demoObject,
              List.mem_cons, List.mem_singleton, List.not_mem_nil, or_false] at hb
            rcases hb with h | h <;> subst h <;> rfl⟩)
      (fun _ => rfl)
  exact ⟨it, hit, hlen⟩

/-- C9 (counterexample). On a sample dataset holding two records, BeginFullSync,
one Write and CancelFullSync leave three records, and a Changes iteration
then yields three entities where it yielded two before. -/
theorem cancelFullSync_keeps_the_write :
    ∃ ds1, SampleDataset.cancelledFullSync idealJson [demoItem] demoSampleDataset = some ds1 ∧
      demoSampleDataset.data.length = 2 ∧ ds1.data.length = 3 ∧
      (∃ it, SampleDataset.Changes idealJson demoGenericMapper demoSampleDataset "" 0 false
          = (some it, none) ∧ (MappingEntityIterator.drain 9 it).length = 2) ∧
      (∃ it, SampleDataset.Changes idealJson demoGenericMapper ds1 "" 0 false
          = (some it, none) ∧ (MappingEntityIterator.drain 9 it).length = 3) :=
  ⟨_, rfl, rfl, rfl, ⟨_, rfl, rfl⟩, ⟨_, rfl, rfl⟩⟩

/-- C9 (amended). For every sample dataset and every finite sequence of items whose
field id is absent or a string, BeginFullSync, then Write for each item, then
CancelFullSync leave the stored records as the records before BeginFullSync
followed by one new record per written item, in order: the number of records
grows by the number of items written, and nothing is discarded. When moreover
every written item has a non-nil raw map, the codec is lossless, the records
stored before decode to objects with non-nil Props and the mapper returns an
entity for every item, a Changes iteration yields as many entities as there
were records before, and after the cancelled full sync it yields that number
plus the number of items written, and then nil. -/
theorem cancelledFullSync_appends_the_writes {Bytes : Type} (json : JsonCodec Bytes)
    (ds : SampleDataset Bytes) (items : List DataItem)
    (hid : ∀ item ∈ items,
      item.GetValue "id" = Value.null ∨ ∃ s, item.GetValue "id" = Value.str s) :
    SampleDataset.cancelledFullSync json items ds =
      some { ds with data := ds.data ++ items.map (SampleDataset.recordOf json) } ∧
    (ds.data ++ items.map (SampleDataset.recordOf json)).length =
      ds.data.length + items.length ∧
    (∀ (genericMapper : List EntityPropertyMapping → DataItem → Option Entity)
        (since : String) (take : Int) (latestOnly : Bool),
      (∀ d, json.unmarshal (json.marshal d) = some d) →
      (∀ b ∈ ds.data, ∃ id props,
        json.unmarshal b = some { ID := id, Props := some props }) →
      (∀ item ∈ items, item.raw ≠ none) →
      (∀ item, (genericMapper ds.mappings item).isSome = true) →
      ∃ before after,
        SampleDataset.Changes json genericMapper ds since take latestOnly
          = (some before, none) ∧
        SampleDataset.Changes json genericMapper
            { ds with data := ds.data ++ items.map (SampleDataset.recordOf json) }
            since take latestOnly
          = (some after, none) ∧
        (∀ fuel, (MappingEntityIterator.drain fuel before).length = min fuel ds.data.length) ∧
        (∀ fuel, (MappingEntityIterator.drain fuel after).length
          = min fuel (ds.data.length + items.length)) ∧
        (MappingEntityIterator.nextCalls (ds.data.length + items.length + 1) after).1 =
          (MappingEntityIterator.drain (ds.data.length + items.length) after).map
              (fun e => Res.val (some e)) ++ [Res.val none]) := by
  refine ⟨?_, by simp, ?_⟩
  · unfold SampleDataset.cancelledFullSync
    simp only [SampleDataset.BeginFullSync, SampleDataset.CancelFullSync,
      writeAll_appends json items ds hid]
  · intro genericMapper since take latestOnly hlossless hds hraw hmapper
    have h1 := sampleIterator_run json (genericMapper ds.mappings) hmapper ds.data [] hds
    have h2 := sampleIterator_run json (genericMapper ds.mappings) hmapper
      (ds.data ++ items.map (SampleDataset.recordOf json)) []
      (wellFormed_append_written json hlossless ds.data hds items hraw)
    simp only [List.nil_append, List.length_nil, List.length_append, List.length_map]
      at h1 h2
    exact ⟨_, _, rfl, rfl, h1.1, h2.1, h2.2⟩

/-- C9 (witness). The example item has the string id ID2 and a non-nil raw map; a
cancelled full sync that writes it to the example dataset leaves the two old
records followed by the record of that item, and a Changes iteration over the
dataset then yields three entities. -/
theorem cancelledFullSync_appends_the_writes_witness :
    SampleDataset.cancelledFullSync idealJson [demoItem] demoSampleDataset =
      some { demoSampleDataset with
        data := demoSampleDataset.data ++ [SampleDataset.recordOf idealJson demoItem] } ∧
    (∃ after,
      SampleDataset.Changes idealJson demoGenericMapper
          { demoSampleDataset with
            data := demoSampleDataset.data ++ [SampleDataset.recordOf idealJson demoItem] }
          "" 0 false
        = (some after, none) ∧
      (MappingEntityIterator.drain 9 after).length = 3) := by
  have h := cancelledFullSync_appends_the_writes idealJson demoSampleDataset [demoItem]
    (by
      intro item hitem
      rw [List.mem_singleton] at hitem
      subst hitem
      exact Or.inr ⟨"ID2", rfl⟩)
  refine ⟨h.1, ?_⟩
  obtain ⟨_, after, _, hafter, _, hcount, _⟩ :=
    h.2.2 demoGenericMapper "" 0 false (fun _ => rfl) demoSampleDataset_decodes
      (by
        intro item hitem
        rw [List.mem_singleton] at hitem
        subst hitem
        exact fun hnil => Option.noConfusion hnil)
      (fun _ => rfl)
  exact ⟨after, hafter, hcount 9⟩

/-- C11 (counterexample). From a rule list without an identity rule, and from one
with two identity rules, NewDefaultItemMapper returns a mapper (not an error)
whose EntityToItem returns an item; with the two identity rules the ID of the
entity lands in both fields. NewMappingEntityIterator likewise returns an
iterator from the empty rule list, and its Next returns an entity. -/
theorem constructors_accept_any_identity_count :
    (NewDefaultItemMapper demoRulesNoIdentity).mappings = demoRulesNoIdentity ∧
    (∃ item, (NewDefaultItemMapper demoRulesNoIdentity).EntityToItem demoEntityAB = Res.val item ∧
      item.GetValue "x" = Value.int 1) ∧
    (∃ item, (NewDefaultItemMapper demoRulesTwoIdentities).EntityToItem demoEntityAB
        = Res.val item ∧
      item.GetValue "id" = Value.str "e1" ∧ item.GetValue "key" = Value.str "e1") ∧
    (∃ ent, (NewMappingEntityIterator demoGenericMapper [] (DataObjectIterator.Next idealJson)
        (NewDataObjectIterator demoSampleDataset.data)).Next.result = Res.val (some ent) ∧
      ent.ID = "ID0") :=
  ⟨rfl, ⟨_, rfl, rfl⟩, ⟨_, rfl, rfl, rfl⟩, ⟨_, rfl, rfl⟩⟩

/-- C11 (amended). For every rule list, whatever the number of its identity rules
(none, one or several), NewDefaultItemMapper returns a mapper that holds
exactly that rule list and whose EntityToItem returns an item for every
entity, and NewMappingEntityIterator returns an iterator over the given item
iterator with the mapper built from that rule list: neither constructor
checks the rules or reports a configuration error. -/
theorem constructors_do_not_validate {σ Item Ent : Type}
    (mappings : List EntityPropertyMapping) (e : Entity)
    (genericMapper : List EntityPropertyMapping → Item → Option Ent)
    (rowNext : σ → Res (Option Item) × σ) (itemIterator : σ) :
    (NewDefaultItemMapper mappings).mappings = mappings ∧
    (∃ item, (NewDefaultItemMapper mappings).EntityToItem e = Res.val item) ∧
    (NewMappingEntityIterator genericMapper mappings rowNext itemIterator).mapper
      = genericMapper mappings ∧
    (NewMappingEntityIterator genericMapper mappings rowNext itemIterator).rowIterator
      = itemIterator ∧
    (NewMappingEntityIterator genericMapper mappings rowNext itemIterator).Next.result
      = mapRowResult (genericMapper mappings) (rowNext itemIterator).1 := by
  exact ⟨rfl, ⟨_, entityToItemLoop_eq_writes e mappings GoMap.empty⟩, rfl, rfl,
    mappingNext_result _⟩

/-- C12 (counterexample). With two rules that both write the field x, the first
from the property a and the second from b, EntityToItem on an entity with
a = 1 and b = 2 returns an item (no error, no panic) whose field x holds 2. -/
theorem entityToItem_overwrites_same_property :
    ∃ item, (NewDefaultItemMapper demoRulesSameProperty).EntityToItem demoEntityAB
        = Res.val item ∧
      item.GetValue "x" = Value.int 2 :=
  ⟨_, rfl, rfl⟩

/-- C12 (amended). For every entity and every rule list, also one in which two
rules name the same target Property, EntityToItem returns an item and no
error: each write replaces what an earlier rule wrote to the same field, so
the field of a rule that no later rule names again holds the value of that
rule (the ID of the entity for an identity rule,
entity.Properties[EntityProperty] otherwise). -/
theorem entityToItem_last_rule_wins (d : DefaultItemMapper) (e : Entity) :
    ∃ item, d.EntityToItem e = Res.val item ∧
      ∀ pre r post, d.mappings = pre ++ r :: post →
        r.Property ∉ post.map (fun r2 => r2.Property) →
        item.GetValue r.Property =
          (if r.IsIdentity then Value.str e.ID else mapIndex e.Properties r.EntityProperty) := by
  refine ⟨_, entityToItemLoop_eq_writes e d.mappings GoMap.empty, ?_⟩
  intro pre r post hsplit hlast
  simp only [DataItem.GetValue, mapIndex, hsplit, writes_last e pre post r GoMap.empty hlast,
    Option.getD_some, DefaultItemMapper.ruleValue]

/-- C12 (witness). In the list of the two rules that write x, the second rule is
the last to name x, and the item holds its value, the property b = 2. -/
theorem entityToItem_last_rule_wins_witness :
    ∃ item, (NewDefaultItemMapper demoRulesSameProperty).EntityToItem demoEntityAB
        = Res.val item ∧
      item.GetValue "x" = mapIndex demoEntityAB.Properties "b" := by
  obtain ⟨item, hrun, hlast⟩ :=
    entityToItem_last_rule_wins (NewDefaultItemMapper demoRulesSameProperty) demoEntityAB
  exact ⟨item, hrun,
    hlast [{ Property := "x", EntityProperty := "a", IsIdentity := false }]
      { Property := "x", EntityProperty := "b", IsIdentity := false } [] rfl (by simp)⟩

/-- C13. For every entity and every rule list, EntityToItem returns an item whose
field names are exactly the Property names of the rules; and the item does
not depend on the entity properties that no rule names: two entities with
the same ID that agree on every EntityProperty named by a rule give the same
item. -/
theorem entityToItem_fields_are_rule_properties (d : DefaultItemMapper) (e : Entity) :
    ∃ m : GoMap, d.EntityToItem e = Res.val { raw := some m } ∧
      (∀ k, (m k).isSome = true ↔ k ∈ d.mappings.map (fun r => r.Property)) ∧
      (∀ e2 : Entity, e2.ID = e.ID →
        (∀ r ∈ d.mappings,
          mapIndex e2.Properties r.EntityProperty = mapIndex e.Properties r.EntityProperty) →
        d.EntityToItem e2 = d.EntityToItem e) := by
  refine ⟨_, entityToItemLoop_eq_writes e d.mappings GoMap.empty, ?_, ?_⟩
  · intro k
    rw [writes_keys]
    simp [GoMap.empty]
  · intro e2 hid hagree
    unfold DefaultItemMapper.EntityToItem
    rw [entityToItemLoop_eq_writes, entityToItemLoop_eq_writes,
      writes_congr e e2 d.mappings hid GoMap.empty (fun r hr _ => hagree r hr)]

/-- C13 (witness). With the one rule x from a, the entity with a = 1 and b = 2 and
the entity with a = 1 alone (same ID) give the same item: the unmapped
property b contributes nothing. -/
theorem entityToItem_fields_are_rule_properties_witness :
    DefaultItemMapper.EntityToItem (NewDefaultItemMapper demoRulesNoIdentity)
        { ID := "e1", Properties := some (GoMap.empty.set "a" (Value.int 1)) }
      = DefaultItemMapper.EntityToItem (NewDefaultItemMapper demoRulesNoIdentity) demoEntityAB := by
  obtain ⟨_, _, _, hindep⟩ :=
    entityToItem_fields_are_rule_properties (NewDefaultItemMapper demoRulesNoIdentity) demoEntityAB
  apply hindep _ rfl
  intro r hr
  simp only [NewDefaultItemMapper, demoRulesNoIdentity, List.mem_singleton] at hr
  subst hr
  rfl

/-- C14. For every list of n serialized data objects that each decode to an object
with a non-nil Props map, the iterator that NewDataObjectIterator builds keeps
its list of objects, and after k calls of Next its position is min(k, n), so
it only moves forward and never exceeds n; for k < n the call number k+1
returns the item whose fields are the Props of the object at index k with the
field id set to the ID of that object; and every call after the n-th returns
nil. -/
theorem dataObjectIterator_forward_only_finite {Bytes : Type} (json : JsonCodec Bytes)
    (objects : List Bytes)
    (hwf : ∀ b ∈ objects, ∃ id props,
      json.unmarshal b = some { ID := id, Props := some props }) :
    (∀ k, (DataObjectIterator.after json k (NewDataObjectIterator objects)).objects = objects ∧
      (DataObjectIterator.after json k (NewDataObjectIterator objects)).pos
        = min k objects.length ∧
      (DataObjectIterator.after json k (NewDataObjectIterator objects)).pos ≤ objects.length ∧
      (DataObjectIterator.after json k (NewDataObjectIterator objects)).pos ≤
        (DataObjectIterator.after json (k + 1) (NewDataObjectIterator objects)).pos) ∧
    (∀ k, k < objects.length →
      ∃ b id props, objects.get? k = some b ∧
        json.unmarshal b = some { ID := id, Props := some props } ∧
        (DataObjectIterator.Next json
            (DataObjectIterator.after json k (NewDataObjectIterator objects))).1 =
          Res.val (some { raw := some (props.set "id" (Value.str id)) })) ∧
    (∀ k, objects.length ≤ k →
      (DataObjectIterator.Next json
          (DataObjectIterator.after json k (NewDataObjectIterator objects))).1 = Res.val none) := by
  have hstate : ∀ k, DataObjectIterator.after json k (NewDataObjectIterator objects) =
      { objects := objects, pos := min k objects.length } := by
    intro k
    have h := dataObjectIterator_after_state json k (NewDataObjectIterator objects)
      (Nat.zero_le _)
    simpa [NewDataObjectIterator] using h
  refine ⟨?_, ?_, ?_⟩
  · intro k
    rw [hstate k, hstate (k + 1)]
    refine ⟨rfl, rfl, Nat.min_le_right _ _, ?_⟩
    simp only
    omega
  · intro k hk
    exact dataObjectIterator_kth_call json objects k hk hwf
  · intro k hk
    apply dataObjectIterator_next_past_end
    rw [hstate k]
    simp only
    omega

/-- C14 (witness). Over the two records of the example dataset, the second call of
Next returns the item of the object at index 1 (its name and its ID ID1), and
the third call returns nil. -/
theorem dataObjectIterator_forward_only_finite_witness :
    (DataObjectIterator.Next idealJson
        (DataObjectIterator.after idealJson 1
          (NewDataObjectIterator demoSampleDataset.data))).1 =
      Res.val (some (DataItem.mk
        (some ((GoMap.empty.set "name" (Value.str "name1")).set "id" (Value.str "ID1"))))) ∧
    (DataObjectIterator.Next idealJson
        (DataObjectIterator.after idealJson 2
          (NewDataObjectIterator demoSampleDataset.data))).1 = Res.val none :=
  ⟨rfl, (dataObjectIterator_forward_only_finite idealJson demoSampleDataset.data
      demoSampleDataset_decodes).2.2 2 (Nat.le_refl 2)⟩

/-- C15 (code at the failing input). Write of an item whose field id holds the
number 42 panics at the type assertion to string: it does not return, and no
record is appended. -/
theorem write_panics_on_non_string_id :
    (SampleDataset.Write idealJson demoSampleDataset demoItemNumericId).1 =
      Res.panic "interface conversion: interface {} is not string" ∧
    (∀ err, (SampleDataset.Write idealJson demoSampleDataset demoItemNumericId).1 ≠ Res.val err) ∧
    (SampleDataset.Write idealJson demoSampleDataset demoItemNumericId).2.data.length =
      demoSampleDataset.data.length := by
  refine ⟨rfl, ?_, rfl⟩
  intro err h
  have h2 : (SampleDataset.Write idealJson demoSampleDataset demoItemNumericId).1 =
      Res.panic "interface conversion: interface {} is not string" := rfl
  rw [h2] at h
  exact Res.noConfusion h

/-- C16 (code at the failing input). With the reader of the first file exhausted, an
empty second file and a third file that holds the item c1, Next closes the
first file, opens the second, reads its end, and returns nil with no error:
the end of the sequence, although the third file holds an item. The third
file is never opened. -/
theorem next_ends_at_empty_unit :
    demoIteratorBeforeEmptyUnit.Next.result = Res.val (none, none) ∧
    demoIteratorBeforeEmptyUnit.Next.trace =
      [FileEvent.readEnd, FileEvent.closed true, FileEvent.opened 1 true, FileEvent.readEnd] ∧
    demoIteratorBeforeEmptyUnit.Next.recv.filesIndex = 1 ∧
    demoIteratorBeforeEmptyUnit.files.get? 2 = some (demoFile "c.json" 3 ["c1"]) ∧
    demoIteratorBeforeEmptyUnit.Next.result ≠ Res.val (some (demoEntity "c1"), none) := by
  refine ⟨rfl, rfl, rfl, rfl, ?_⟩
  intro h
  have h2 : demoIteratorBeforeEmptyUnit.Next.result = Res.val (none, none) := rfl
  rw [h2] at h
  injection h with h
  injection h with h _
  exact Option.noConfusion h

/-- C17 (code at the failing input). On the iterator that
NewFileCollectionEntityIterator builds over an empty list of files, the first
call of Next panics with a nil dereference (no reader was opened, and the body
reads from the nil reader): it does not return nil, nil. The same iterator is
what Changes returns when no file of the directory matches the pattern. -/
theorem next_panics_on_empty_file_list :
    (NewFileCollectionEntityIterator "dir" ([] : List (DirEntry String)) demoMapper "" none).Next.result
      = Res.panic "invalid memory address or nil pointer dereference" ∧
    (NewFileCollectionEntityIterator "dir" ([] : List (DirEntry String)) demoMapper "" none).callNext.1
      = Res.panic "invalid memory address or nil pointer dereference" ∧
    FileCollectionEntityIterator.nextCalls 1
        (NewFileCollectionEntityIterator "dir" ([] : List (DirEntry String)) demoMapper "" none)
      ≠ [Res.val (none, none)] ∧
    FileSystemDataset.Changes (demoWorld demoListingAscending) (demoDataset "none.json" false)
        "" 0 false
      = Res.val (some (NewFileCollectionEntityIterator "dir" [] demoMapper "" none), none) := by
  refine ⟨rfl, rfl, ?_, rfl⟩
  intro h
  have h2 : FileCollectionEntityIterator.nextCalls 1
        (NewFileCollectionEntityIterator "dir" ([] : List (DirEntry String)) demoMapper "" none)
      = [Res.panic "invalid memory address or nil pointer dereference"] := rfl
  rw [h2] at h
  injection h with h _
  exact Res.noConfusion h

/-- C18. Under a lossless codec (decoding an encoded object gives the object back)
and over a dataset whose records all decode to objects with non-nil Props: for
every item with a non-nil raw map, Write returns nil, and a fresh
DataObjectIterator over the records then returns an item at every earlier
call, returns at its last call (the one before nil) an item that, when the
written item has a string field id, has exactly the raw map of the written
item, and when the written item has no field id, has the raw map of the
written item with the field id set to the empty string. -/
theorem write_then_read_round_trip {Bytes : Type} (json : JsonCodec Bytes)
    (ds : SampleDataset Bytes) (raw : GoMap)
    (hlossless : ∀ d, json.unmarshal (json.marshal d) = some d)
    (hds : ∀ b ∈ ds.data, ∃ id props,
      json.unmarshal b = some { ID := id, Props := some props }) :
    (∀ s, raw "id" = some (Value.str s) →
      (SampleDataset.Write json ds { raw := some raw }).1 = Res.val none ∧
      (∀ k, k < ds.data.length → ∃ item,
        SampleDataset.readBack json (SampleDataset.Write json ds { raw := some raw }).2 k
          = Res.val (some item)) ∧
      SampleDataset.readBack json (SampleDataset.Write json ds { raw := some raw }).2
          ds.data.length = Res.val (some { raw := some raw }) ∧
      SampleDataset.readBack json (SampleDataset.Write json ds { raw := some raw }).2
          (ds.data.length + 1) = Res.val none) ∧
    (raw "id" = none →
      (SampleDataset.Write json ds { raw := some raw }).1 = Res.val none ∧
      (∀ k, k < ds.data.length → ∃ item,
        SampleDataset.readBack json (SampleDataset.Write json ds { raw := some raw }).2 k
          = Res.val (some item)) ∧
      SampleDataset.readBack json (SampleDataset.Write json ds { raw := some raw }).2
          ds.data.length = Res.val (some { raw := some (raw.set "id" (Value.str "")) }) ∧
      SampleDataset.readBack json (SampleDataset.Write json ds { raw := some raw }).2
          (ds.data.length + 1) = Res.val none) := by
  constructor
  · intro s hid
    have hW : SampleDataset.Write json ds { raw := some raw } =
        (Res.val none,
          { ds with data := ds.data ++ [json.marshal { ID := s, Props := some raw }] }) := by
      simp [SampleDataset.Write, DataItem.GetValue, DataItem.GetRaw, DataObject.AsBytes,
        mapIndex, hid]
    have hsame : raw.set "id" (Value.str s) = raw := by
      funext k
      by_cases hk : k = "id"
      · simp [GoMap.set, hk, hid]
      · simp [GoMap.set, hk]
    obtain ⟨hearlier, hlast, hend⟩ := readBack_appended_record json hlossless ds hds s raw
    rw [hsame] at hlast
    rw [hW]
    exact ⟨rfl, hearlier, hlast, hend⟩
  · intro hid
    have hW : SampleDataset.Write json ds { raw := some raw } =
        (Res.val none,
          { ds with data := ds.data ++ [json.marshal { ID := "", Props := some raw }] }) := by
      simp [SampleDataset.Write, DataItem.GetValue, DataItem.GetRaw, DataObject.AsBytes,
        mapIndex, hid]
    obtain ⟨hearlier, hlast, hend⟩ := readBack_appended_record json hlossless ds hds "" raw
    rw [hW]
    exact ⟨rfl, hearlier, hlast, hend⟩

/-- C18 (witness). The example item (id = ID2, name = name2) written to the example
dataset of two records is read back unchanged by the third call of a fresh
iterator, and the fourth call returns nil. -/
theorem write_then_read_round_trip_witness :
    SampleDataset.readBack idealJson (SampleDataset.Write idealJson demoSampleDataset demoItem).2 2
      = Res.val (some demoItem) ∧
    SampleDataset.readBack idealJson (SampleDataset.Write idealJson demoSampleDataset demoItem).2 3
      = Res.val none := by
  obtain ⟨_, _, hlast, hend⟩ :=
    (write_then_read_round_trip idealJson demoSampleDataset
      ((GoMap.empty.set "id" (Value.str "ID2")).set "name" (Value.str "name2"))
      (fun _ => rfl) demoSampleDataset_decodes).1 "ID2" rfl
  exact ⟨hlast, hend⟩

/-- C19. For every state of a FileSystemDataLayer and every name, Dataset returns,
with no error, a dataset whose Name is the requested name and whose dataset
definition is unset. A layer built by NewFileSystemDataLayer, or updated by
UpdateConfiguration, registers exactly the names of the configuration, each
with its definition set, so for a registered name the dataset returned is not
the registered one. SampleDataLayer.Dataset returns the registered dataset
and no error when the name is registered, and otherwise no dataset and an
error tagged BadParameter. -/
theorem dataset_lookup {Bytes : Type} (dl : FileSystemDataLayer) (conf : Config)
    (sdl : SampleDataLayer Bytes) (name : String) :
    (∃ ds, dl.Dataset name = (some ds, none) ∧ ds.Name = name ∧ ds.datasetDefinition = none) ∧
    (((NewFileSystemDataLayer conf).1.datasets name).isSome = true ↔
      name ∈ conf.DatasetDefinitions.map (fun d => d.DatasetName)) ∧
    (((dl.UpdateConfiguration conf).2.datasets name).isSome = true ↔
      name ∈ conf.DatasetDefinitions.map (fun d => d.DatasetName)) ∧
    (∀ reg, (NewFileSystemDataLayer conf).1.datasets name = some reg →
      reg.datasetDefinition ≠ none ∧
      ((NewFileSystemDataLayer conf).1.Dataset name).1 ≠ some reg ∧
      ((NewFileSystemDataLayer conf).1.Dataset name).2 = none) ∧
    (∀ reg, (dl.UpdateConfiguration conf).2.datasets name = some reg →
      reg.datasetDefinition ≠ none ∧
      ((dl.UpdateConfiguration conf).2.Dataset name).1 ≠ some reg ∧
      ((dl.UpdateConfiguration conf).2.Dataset name).2 = none) ∧
    (∀ ds, sdl.datasets name = some ds → sdl.Dataset name = (some ds, none)) ∧
    (sdl.datasets name = none →
      ∃ err, sdl.Dataset name = (none, some err) ∧ err.tag = LayerErrorType.BadParameter) := by
  have hreg := registerAll_spec conf.DatasetDefinitions (fun _ => none) name
  have hfresh : ∀ reg : FileSystemDataset,
      FileSystemDataLayer.registerAll conf.DatasetDefinitions (fun _ => none) name = some reg →
      reg.datasetDefinition ≠ none ∧
      (some { name := name, datasetDefinition := none, path := "", filePattern := "",
              supportSinceByFileTimestamp := false, supportSinceByDataProperty := "",
              isDeletedProperty := "" } : Option FileSystemDataset) ≠ some reg := by
    intro reg h
    rcases hreg.1 reg h with h1 | h1
    · exact Option.noConfusion h1
    · refine ⟨h1.2, ?_⟩
      intro heq
      injection heq with heq
      apply h1.2
      rw [← heq]
  refine ⟨⟨_, rfl, rfl, rfl⟩, ?_, ?_, ?_, ?_, ?_, ?_⟩
  · simpa [NewFileSystemDataLayer] using hreg.2
  · simpa [FileSystemDataLayer.UpdateConfiguration] using hreg.2
  · intro reg h
    exact ⟨(hfresh reg h).1, (hfresh reg h).2, rfl⟩
  · intro reg h
    exact ⟨(hfresh reg h).1, (hfresh reg h).2, rfl⟩
  · intro ds h
    simp [SampleDataLayer.Dataset, h]
  · intro h
    refine ⟨{ tag := LayerErrorType.BadParameter, msg := "dataset %s not found" }, ?_, rfl⟩
    simp [SampleDataLayer.Dataset, h]

/-- C19 (witness). In the layer built from a configuration that defines the dataset
files, the name files is registered with its definition, and Dataset returns
for it a dataset without definition; in the sample layer, the unregistered
name files gives an error tagged BadParameter. -/
theorem dataset_lookup_witness :
    (∃ reg, (NewFileSystemDataLayer demoConfig).1.datasets "files" = some reg ∧
      reg.datasetDefinition ≠ none ∧
      ((NewFileSystemDataLayer demoConfig).1.Dataset "files").1 ≠ some reg) ∧
    (∃ err, demoSampleLayer.Dataset "files" = (none, some err) ∧
      err.tag = LayerErrorType.BadParameter) := by
  have h := dataset_lookup (NewFileSystemDataLayer demoConfig).1 demoConfig demoSampleLayer "files"
  refine ⟨⟨_, rfl, ?_⟩, h.2.2.2.2.2.2 rfl⟩
  have h2 := h.2.2.2.1 _ rfl
  exact ⟨h2.1, h2.2.1⟩

end CommonDatalayer
